import Mathlib

/-!
Verification of the Biomni MCP wrapper server (`src/server.py`).

The development shallowly embeds the server's pure decision logic:

* `Py` models the Python values that flow through the wrapper (the `None`
  singleton, booleans, ints, floats, strings, lists, dicts).  A Python float
  is carried as its `repr` token (a list of characters): CPython's
  `float.__repr__` round-trips, so two finite floats are equal exactly when
  their repr tokens are equal, and `json.dumps` emits that token verbatim.
  Dict keys are strings, which is the shape every value the wrapped tools
  hand to `json.dumps` has in this server.
* `create_dynamic_mcp_tool` is embedded piecewise: `param_names`,
  the type-mapping policy (`mapParamType`, `requiredSynthType`,
  `optionalSynthType`), and the
  generated function's argument binding (`bindArgs`, which models calling
  the generated `def tool(req, ..., opt=default, ...)` with keyword
  arguments and taking `locals()`).
* `_execute_tool` is embedded as `filterArgs` (drop `None`-valued
  arguments), `injectDataPath` (the `data_path` injection), `call_params`,
  result normalisation `formatResult` (with `dumpVal` embedding
  `json.dumps(result, indent=2, ensure_ascii=False)`), and `execute_tool`
  itself, where a raising implementation is modelled as `Except.error`.
* `load_tools_config` is embedded over an abstract `ConfigSource` that
  records how far the read of the configuration file got (file missing,
  read raised, `json.JSONDecodeError`, or a parsed document).
* `register_selected_tools`' per-module counters are embedded as
  `module_counts`.

A recursive-descent JSON reader (`parseVal` and friends) is defined in
order to state that the serialized form of a structured result parses back
to the same value.
-/

/-- Model of the Python values handled by the wrapper.  `float` carries the
`repr` token of a finite float (see the header comment). -/
inductive Py where
  | none : Py
  | bool (b : Bool) : Py
  | int (n : Int) : Py
  | float (lit : List Char) : Py
  | str (s : String) : Py
  | list (xs : List Py) : Py
  | dict (kvs : List (String × Py)) : Py

/-- Models Python's `x is None` test (used by `_execute_tool`'s filter). -/
def isNone : Py → Bool
  | .none => true
  | _ => false

mutual
/-- Size measure used as parser fuel; counts constructors. -/
def pySize : Py → Nat
  | .list xs => 1 + pySizeList xs
  | .dict kvs => 1 + pySizeKvs kvs
  | _ => 1

def pySizeList : List Py → Nat
  | [] => 0
  | x :: xs => 1 + pySize x + pySizeList xs

def pySizeKvs : List (String × Py) → Nat
  | [] => 0
  | (_, v) :: kvs => 1 + pySize v + pySizeKvs kvs
end

/-- Decimal digits of a natural number, fuel-based so that it reduces by
`rfl`; mirrors the digit emission of Python's `repr(int)`. -/
def natReprCore : Nat → Nat → List Char → List Char
  | 0, _, acc => acc
  | fuel + 1, n, acc =>
      if n < 10 then Nat.digitChar n :: acc
      else natReprCore fuel (n / 10) (Nat.digitChar (n % 10) :: acc)

/-- Decimal representation of a natural number. -/
def natRepr (n : Nat) : List Char := natReprCore (n + 1) n []

/-- `repr` of a Python int (what `json.dumps` and `str` emit for it). -/
def intRepr : Int → List Char
  | .ofNat m => natRepr m
  | .negSucc m => '-' :: natRepr (m + 1)

/-- Escaping of one character inside a JSON string literal, as done by
`json.dumps(..., ensure_ascii=False)`: backslash, quote and the named
control characters get two-character escapes, the remaining control
characters get `\u00XX`, everything else is emitted verbatim. -/
def escChar (c : Char) : List Char :=
  if c = '\\' then ['\\', '\\']
  else if c = '"' then ['\\', '"']
  else if c = '\x08' then ['\\', 'b']
  else if c = '\x0c' then ['\\', 'f']
  else if c = '\n' then ['\\', 'n']
  else if c = '\r' then ['\\', 'r']
  else if c = '\t' then ['\\', 't']
  else if c.toNat < 32 then
    ['\\', 'u', '0', '0', Nat.digitChar (c.toNat / 16), Nat.digitChar (c.toNat % 16)]
  else [c]

/-- Escaped body of a JSON string literal. -/
def escString (s : List Char) : List Char := s.flatMap escChar

mutual
/-- Embedding of `json.dumps(v, indent=2, ensure_ascii=False)` at the
current indentation level `ind`: members/elements of a non-empty container
are laid out one per line, indented two further spaces, separated by
`",\n"`, the key separator is `": "`, and the closing bracket returns to
the enclosing indentation. -/
def dumpVal : Py → Nat → List Char
  | .none, _ => ['n', 'u', 'l', 'l']
  | .bool true, _ => ['t', 'r', 'u', 'e']
  | .bool false, _ => ['f', 'a', 'l', 's', 'e']
  | .int n, _ => intRepr n
  | .float lit, _ => lit
  | .str s, _ => '"' :: escString s.data ++ ['"']
  | .list [], _ => ['[', ']']
  | .list (x :: xs), ind =>
      '[' :: '\n' :: dumpElems (x :: xs) (ind + 2) ++
        '\n' :: List.replicate ind ' ' ++ [']']
  | .dict [], _ => ['\x7b', '\x7d']
  | .dict (kv :: kvs), ind =>
      '\x7b' :: '\n' :: dumpMembers (kv :: kvs) (ind + 2) ++
        '\n' :: List.replicate ind ' ' ++ ['\x7d']

def dumpElems : List Py → Nat → List Char
  | [], _ => []
  | [x], ind => List.replicate ind ' ' ++ dumpVal x ind
  | x :: y :: xs, ind =>
      List.replicate ind ' ' ++ dumpVal x ind ++
        ',' :: '\n' :: dumpElems (y :: xs) ind

def dumpMembers : List (String × Py) → Nat → List Char
  | [], _ => []
  | [(k, v)], ind =>
      List.replicate ind ' ' ++ '"' :: escString k.data ++ '"' :: ':' :: ' ' :: dumpVal v ind
  | (k, v) :: kv :: kvs, ind =>
      List.replicate ind ' ' ++ '"' :: escString k.data ++ '"' :: ':' :: ' ' :: dumpVal v ind ++
        ',' :: '\n' :: dumpMembers (kv :: kvs) ind
end

/-- Result normalisation of `_execute_tool` (lines 207-214 of
`src/server.py`): a `str` is returned verbatim, a `dict` or `list` goes
through `json.dumps(result, indent=2, ensure_ascii=False)`, anything else
through `str(result)`. -/
def formatResult : Py → String
  | .str s => s
  | .dict kvs => String.mk (dumpVal (.dict kvs) 0)
  | .list xs => String.mk (dumpVal (.list xs) 0)
  | .none => "None"
  | .bool true => "True"
  | .bool false => "False"
  | .int n => String.mk (intRepr n)
  | .float lit => String.mk lit

/-- One entry of `required_parameters` / `optional_parameters` in a Biomni
tool descriptor.  `default` models Python's `param.get('default')`, which
yields `None` both when the key is absent and when it is literally null. -/
structure ParamSpec where
  name : String
  type : String
  description : String
  default : Py

/-- A Biomni tool descriptor as consumed by `create_dynamic_mcp_tool`. -/
structure ToolInfo where
  name : String
  description : String
  required_parameters : List ParamSpec
  optional_parameters : List ParamSpec

/-- `param_names` accumulated by `create_dynamic_mcp_tool`: required
parameter names in descriptor order, then optional ones. -/
def param_names (info : ToolInfo) : List String :=
  info.required_parameters.map ParamSpec.name ++ info.optional_parameters.map ParamSpec.name

/-- The schema-level base types the builder can emit. -/
inductive JsonType where
  | string : JsonType
  | integer : JsonType
  | floating : JsonType
  | boolean : JsonType
  deriving DecidableEq

/-- A synthesized annotation: either the plain mapped type or the optional
form `T | None`. -/
inductive SynthType where
  | plain (t : JsonType) : SynthType
  | optionalOf (t : JsonType) : SynthType
  deriving DecidableEq

/-- The declared-type mapping of `create_dynamic_mcp_tool`:
`str`/`int`/`float`/`bool` map to their schema types, anything else falls
back to string. -/
def mapParamType (t : String) : JsonType :=
  if t = "str" then .string
  else if t = "int" then .integer
  else if t = "float" then .floating
  else if t = "bool" then .boolean
  else .string

/-- Annotation synthesized for a required parameter (lines 133-143):
always the plain mapped type. -/
def requiredSynthType (p : ParamSpec) : SynthType := .plain (mapParamType p.type)

/-- Annotation synthesized for an optional parameter (lines 157-172): for
`str`, `int`, `float` and the fallback branch the type becomes
`base | None` when the descriptor carries no (non-null) default and stays
plain otherwise; the `bool` branch keeps the plain type unconditionally. -/
def optionalSynthType (p : ParamSpec) : SynthType :=
  if p.type = "bool" then .plain .boolean
  else if isNone p.default then .optionalOf (mapParamType p.type)
  else .plain (mapParamType p.type)

/-- The default the generated `def` gives an optional parameter (lines
174-178): the descriptor's literal default when one is present, else
`None`.  In both cases this equals `param.get('default')`. -/
def optionalDefaultValue (p : ParamSpec) : Py := p.default

/-- Binding of the required parameters: each must be supplied by the
caller (otherwise Python raises `TypeError` before `_execute_tool` runs,
modelled as `Option.none`). -/
def bindRequired (ps : List ParamSpec) (args : List (String × Py)) :
    Option (List (String × Py)) :=
  match ps with
  | [] => some []
  | p :: ps =>
      match args.lookup p.name with
      | some v => (bindRequired ps args).map (fun rest => (p.name, v) :: rest)
      | Option.none => Option.none

/-- Calling the generated function with keyword arguments `args` and
reading back `locals()`: every supplied name must be a declared parameter
and every required parameter must be supplied (otherwise Python raises
`TypeError` before `_execute_tool` runs, modelled as `Option.none`);
optional parameters fall back to their generated default.  The resulting
association list is the generated function's `locals()`, in declared
parameter order. -/
def bindArgs (info : ToolInfo) (args : List (String × Py)) : Option (List (String × Py)) :=
  if args.all (fun kv => kv.1 ∈ param_names info) then
    (bindRequired info.required_parameters args).map
      (fun reqs => reqs ++ info.optional_parameters.map
        (fun p => (p.name, ((args.lookup p.name).getD (optionalDefaultValue p)))))
  else Option.none

/-- Lines 195-198 of `_execute_tool`: walk `param_names` in order and keep
exactly the arguments that are present and not `None`. -/
def filterArgs (names : List String) (locals : List (String × Py)) : List (String × Py) :=
  names.filterMap (fun n =>
    match locals.lookup n with
    | some v => if isNone v then Option.none else some (n, v)
    | Option.none => Option.none)

/-- Lines 200-202 of `_execute_tool`: when the wrapped implementation's
signature declares `data_path` and the filtered call parameters do not
already carry it, append the computed data-lake path. -/
def injectDataPath (sigParams : List String) (basePath : String)
    (cp : List (String × Py)) : List (String × Py) :=
  if "data_path" ∈ sigParams ∧ (cp.lookup "data_path").isNone then
    cp ++ [("data_path", Py.str (basePath ++ "/biomni_data/data_lake"))]
  else cp

/-- The wrapped implementation: its `inspect.signature` parameter names and
its behaviour, where raising is modelled as `Except.error` carrying
`str(e)`. -/
structure Impl where
  sigParams : List String
  run : List (String × Py) → Except String Py

/-- The argument mapping handed to the wrapped implementation. -/
def call_params (basePath : String) (info : ToolInfo) (impl : Impl)
    (locals : List (String × Py)) : List (String × Py) :=
  injectDataPath impl.sigParams basePath (filterArgs (param_names info) locals)

/-- The diagnostic string built on line 218. -/
def errorMessage (name msg : String) : String :=
  "❌ Error executing " ++ name ++ ": " ++ msg

/-- `_execute_tool` (lines 187-221): filter, inject, invoke, normalise;
any exception is converted into the diagnostic string.  Totality of this
definition is the embedding of "the wrapper never raises outward". -/
def execute_tool (basePath : String) (info : ToolInfo) (impl : Impl)
    (locals : List (String × Py)) : String :=
  match impl.run (call_params basePath info impl locals) with
  | .ok r => formatResult r
  | .error e => errorMessage info.name e

/-- How far reading the selection file got.  `missing` is the
`os.path.exists` failure, `unreadable` any exception other than a JSON
parse error (e.g. an I/O error, or `config.get` failing because the parsed
document is not an object), `invalidJson` a `json.JSONDecodeError`, and
`parsedObject` a successfully parsed top-level JSON object. -/
inductive ConfigSource where
  | missing : ConfigSource
  | unreadable (err : String) : ConfigSource
  | invalidJson (line col : Nat) (msg : String) : ConfigSource
  | parsedObject (doc : List (String × Py)) : ConfigSource

/-- The minimal default configuration (lines 41-46, 81-86, 92-97). -/
def fallback_config : Py :=
  Py.dict [("biomni.tool.support_tools",
    Py.list [Py.str "run_python_repl", Py.str "read_function_source_code"])]

/-- `load_tools_config` (lines 31-97): a missing file, a JSON parse error
or any other exception yields the fallback; a parsed object yields its
`selected_tools` member, defaulting to the empty object. -/
def load_tools_config : ConfigSource → Py
  | .missing => fallback_config
  | .unreadable _ => fallback_config
  | .invalidJson _ _ _ => fallback_config
  | .parsedObject doc => (doc.lookup "selected_tools").getD (Py.dict [])

/-- An activated tool: the descriptor together with the resolved
implementation, as bound by `create_dynamic_mcp_tool`. -/
structure Adapter where
  info : ToolInfo
  impl : Impl

/-- Modelled from the spec: the duplicate-name behaviour of the Registry.
The live registry is `FastMCP`'s tool table, reached through
`mcp.tool(name=tool_name)(...)` on line 294; that library is not part of
this repository, and §4.4 of the spec fixes its contract as "first
registration for a name is accepted; a later attempt to register the same
name is rejected as a no-op with a diagnostic". -/
def registerTool (reg : List (String × Adapter)) (name : String) (a : Adapter) :
    List (String × Adapter) :=
  if (reg.lookup name).isSome then reg else reg ++ [(name, a)]

/-- Modelled from the spec: `lookup(name)` on the Registry of §4.4. -/
def lookupTool (reg : List (String × Adapter)) (name : String) : Option Adapter :=
  reg.lookup name

/-- The per-module `(module_registered, module_failed)` counters of
`register_selected_tools` (lines 268-312): walk the module's descriptors
in order, skip the ones whose name is not selected, and classify each
attempted registration by the outcome `ok` of its import/resolve/register
steps. -/
def module_counts (tools : List ToolInfo) (sel : List String)
    (ok : String → Bool) : Nat × Nat :=
  tools.foldl
    (fun acc t =>
      if t.name ∈ sel then
        if ok t.name then (acc.1 + 1, acc.2) else (acc.1, acc.2 + 1)
      else acc)
    (0, 0)

/-- JSON insignificant whitespace. -/
def isWs (c : Char) : Bool := c = ' ' || c = '\n' || c = '\t' || c = '\r'

/-- Drop leading JSON whitespace. -/
def skipWs (l : List Char) : List Char := l.dropWhile isWs

/-- Characters that may occur in a JSON number token. -/
def isNumChar (c : Char) : Bool :=
  c.isDigit || c = '-' || c = '+' || c = '.' || c = 'e' || c = 'E'

/-- Characters that make a number token a float rather than an int. -/
def isFloatMark (c : Char) : Bool := c = '.' || c = 'e' || c = 'E'

/-- Value of a big-endian list of decimal digit characters. -/
def digitsVal (l : List Char) : Nat :=
  l.foldl (fun a c => a * 10 + (c.toNat - '0'.toNat)) 0

/-- Read an integer token (optional minus sign, then decimal digits). -/
def parseIntTok : List Char → Option Int
  | [] => Option.none
  | c :: r =>
      if c = '-' then
        if r ≠ [] ∧ r.all Char.isDigit then some (-(digitsVal r : Int))
        else Option.none
      else if (c :: r).all Char.isDigit then some ((digitsVal (c :: r) : Int))
      else Option.none

/-- Read a number: the maximal run of number characters is the token; a
token mentioning `.`, `e` or `E` is a float (kept as its literal, matching
the float model), otherwise it is an int. -/
def parseNumber (l : List Char) : Option (Py × List Char) :=
  let tok := l.takeWhile isNumChar
  let rest := l.dropWhile isNumChar
  if tok = [] then Option.none
  else if tok.any isFloatMark then some (.float tok, rest)
  else (parseIntTok tok).map (fun n => ((.int n : Py), rest))

/-- Value of one hexadecimal digit character. -/
def hexVal (c : Char) : Option Nat :=
  if c.isDigit then some (c.toNat - '0'.toNat)
  else if 'a' ≤ c ∧ c ≤ 'f' then some (c.toNat - 'a'.toNat + 10)
  else if 'A' ≤ c ∧ c ≤ 'F' then some (c.toNat - 'A'.toNat + 10)
  else Option.none

/-- Inverse of the two-character JSON escapes. -/
def unescChar (c : Char) : Option Char :=
  if c = '"' then some '"'
  else if c = '\\' then some '\\'
  else if c = '/' then some '/'
  else if c = 'b' then some '\x08'
  else if c = 'f' then some '\x0c'
  else if c = 'n' then some '\n'
  else if c = 'r' then some '\r'
  else if c = 't' then some '\t'
  else Option.none

/-- Read the body of a JSON string literal after its opening quote,
returning the decoded characters and the input after the closing quote. -/
def parseStringBody : List Char → Option (List Char × List Char)
  | [] => Option.none
  | c :: r =>
      if c = '"' then some ([], r)
      else if c = '\\' then
        match r with
        | [] => Option.none
        | e :: r1 =>
            if e = 'u' then
              match r1 with
              | h1 :: h2 :: h3 :: h4 :: r2 =>
                  match hexVal h1, hexVal h2, hexVal h3, hexVal h4 with
                  | some a, some b, some x, some d =>
                      (parseStringBody r2).map
                        (fun sr => (Char.ofNat (((a * 16 + b) * 16 + x) * 16 + d) :: sr.1, sr.2))
                  | _, _, _, _ => Option.none
              | _ => Option.none
            else
              (unescChar e).bind (fun u =>
                (parseStringBody r1).map (fun sr => (u :: sr.1, sr.2)))
      else (parseStringBody r).map (fun sr => (c :: sr.1, sr.2))

/-- Consume an expected literal prefix. -/
def stripLit : List Char → List Char → Option (List Char)
  | [], l => some l
  | _ :: _, [] => Option.none
  | p :: ps, c :: cs => if c = p then stripLit ps cs else Option.none

mutual
/-- Fuel-bounded recursive-descent JSON value reader. -/
def parseVal : Nat → List Char → Option (Py × List Char)
  | 0, _ => Option.none
  | fuel + 1, l =>
      match skipWs l with
      | [] => Option.none
      | c :: r =>
          if c = '\x7b' then
            match skipWs r with
            | [] => Option.none
            | c2 :: r2 =>
                if c2 = '\x7d' then some (.dict [], r2)
                else (parseMembers fuel (c2 :: r2)).map (fun mr => ((.dict mr.1 : Py), mr.2))
          else if c = '[' then
            match skipWs r with
            | [] => Option.none
            | c2 :: r2 =>
                if c2 = ']' then some (.list [], r2)
                else (parseElems fuel (c2 :: r2)).map (fun er => ((.list er.1 : Py), er.2))
          else if c = '"' then
            (parseStringBody r).map (fun sr => ((.str (String.mk sr.1) : Py), sr.2))
          else if c = 't' then
            (stripLit ['r', 'u', 'e'] r).map (fun r1 => ((.bool true : Py), r1))
          else if c = 'f' then
            (stripLit ['a', 'l', 's', 'e'] r).map (fun r1 => ((.bool false : Py), r1))
          else if c = 'n' then
            (stripLit ['u', 'l', 'l'] r).map (fun r1 => ((.none : Py), r1))
          else parseNumber (c :: r)

/-- Members of a non-empty JSON object, up to and including the closing
brace. -/
def parseMembers : Nat → List Char → Option (List (String × Py) × List Char)
  | 0, _ => Option.none
  | fuel + 1, l =>
      match skipWs l with
      | [] => Option.none
      | c :: r =>
          if c = '"' then
            match parseStringBody r with
            | some (k, r1) =>
                match skipWs r1 with
                | [] => Option.none
                | c2 :: r2 =>
                    if c2 = ':' then
                      match parseVal fuel r2 with
                      | some (v, r3) =>
                          match skipWs r3 with
                          | [] => Option.none
                          | c4 :: r4 =>
                              if c4 = ',' then
                                (parseMembers fuel r4).map
                                  (fun mr => ((String.mk k, v) :: mr.1, mr.2))
                              else if c4 = '\x7d' then some ([(String.mk k, v)], r4)
                              else Option.none
                      | Option.none => Option.none
                    else Option.none
            | Option.none => Option.none
          else Option.none

/-- Elements of a non-empty JSON array, up to and including the closing
bracket. -/
def parseElems : Nat → List Char → Option (List Py × List Char)
  | 0, _ => Option.none
  | fuel + 1, l =>
      match parseVal fuel l with
      | some (v, r) =>
          match skipWs r with
          | [] => Option.none
          | c :: r2 =>
              if c = ',' then
                (parseElems fuel r2).map (fun er => (v :: er.1, er.2))
              else if c = ']' then some ([v], r2)
              else Option.none
      | Option.none => Option.none
end

/-- Read a whole JSON document: one value, then only whitespace. -/
def parseJson (s : String) : Option Py :=
  match parseVal (s.data.length + 1) s.data with
  | some (v, rest) => if skipWs rest = [] then some v else Option.none
  | Option.none => Option.none

/-- What must follow a number token so that the reader stops exactly at
its end: end of input, or a character that cannot extend the token. -/
def numBoundary (rest : List Char) : Prop :=
  rest = [] ∨ ∃ c r, rest = c :: r ∧ isNumChar c = false

/-- Well-formedness of a float repr token: non-empty, made of number
characters, and containing a float marker (so the reader classifies it as
a float).  Every `repr` of a finite CPython float satisfies this. -/
def wfLit (lit : List Char) : Bool :=
  !lit.isEmpty && lit.all isNumChar && lit.any isFloatMark

mutual
/-- Well-formedness of a result value for the serialisation round trip:
every float repr token it contains is a well-formed number token. -/
def wfPy : Py → Bool
  | .float lit => wfLit lit
  | .list xs => wfPyList xs
  | .dict kvs => wfPyKvs kvs
  | _ => true

def wfPyList : List Py → Bool
  | [] => true
  | x :: xs => wfPy x && wfPyList xs

def wfPyKvs : List (String × Py) → Bool
  | [] => true
  | (_, v) :: kvs => wfPy v && wfPyKvs kvs
end

/-! ## Helper lemmas about the wrapper's argument handling -/

theorem lookup_filterArgs_of_dropped (names : List String) (locals : List (String × Py))
    (n : String)
    (h : locals.lookup n = Option.none ∨ locals.lookup n = some Py.none) :
    (filterArgs names locals).lookup n = Option.none := by
  induction names with
  | nil => rfl
  | cons m ms ih =>
      unfold filterArgs at ih ⊢
      simp only [List.filterMap_cons]
      cases hm : locals.lookup m with
      | none => exact ih
      | some v =>
          by_cases hv : isNone v
          · simp only [hv, if_true]
            exact ih
          · simp only [hv, if_false, Bool.false_eq_true, List.lookup_cons]
            by_cases hnm : n = m
            · subst hnm
              rcases h with h | h <;> rw [hm] at h
              · exact absurd h (by simp)
              · cases h
                simp [isNone] at hv
            · have : (n == m) = false := by simp [hnm]
              simp only [this]
              exact ih

theorem lookup_filterArgs_of_kept (names : List String) (locals : List (String × Py))
    (n : String) (v : Py) (hmem : n ∈ names)
    (hv : locals.lookup n = some v) (hnn : isNone v = false) :
    (filterArgs names locals).lookup n = some v := by
  induction names with
  | nil => cases hmem
  | cons m ms ih =>
      unfold filterArgs at ih ⊢
      simp only [List.filterMap_cons]
      by_cases hnm : n = m
      · subst hnm
        simp only [hv, hnn, if_false, Bool.false_eq_true, List.lookup_cons]
        simp
      · have hmem' : n ∈ ms := by
          cases hmem with
          | head => exact absurd rfl hnm
          | tail _ h => exact h
        cases hm : locals.lookup m with
        | none => exact ih hmem'
        | some w =>
            by_cases hw : isNone w
            · simp only [hw, if_true]
              exact ih hmem'
            · simp only [hw, if_false, Bool.false_eq_true, List.lookup_cons]
              have : (n == m) = false := by simp [hnm]
              simp only [this]
              exact ih hmem'

theorem filterArgs_values_not_none (names : List String) (locals : List (String × Py))
    (k : String) (v : Py) (h : (k, v) ∈ filterArgs names locals) :
    isNone v = false := by
  unfold filterArgs at h
  rcases List.mem_filterMap.mp h with ⟨m, _, hf⟩
  cases hm : locals.lookup m with
  | none => rw [hm] at hf; cases hf
  | some w =>
      rw [hm] at hf
      by_cases hw : isNone w
      · simp only [hw, if_true] at hf
        cases hf
      · simp only [hw, if_false, Bool.false_eq_true] at hf
        cases hf
        exact Bool.eq_false_iff.mpr hw

theorem lookup_filterArgs_of_not_mem (names : List String) (locals : List (String × Py))
    (n : String) (h : n ∉ names) : (filterArgs names locals).lookup n = Option.none := by
  induction names with
  | nil => rfl
  | cons m ms ih =>
      have hne : n ≠ m := fun he => h (he ▸ List.mem_cons_self m ms)
      have h' : n ∉ ms := fun hm => h (List.mem_cons_of_mem _ hm)
      unfold filterArgs at ih ⊢
      simp only [List.filterMap_cons]
      cases hm : locals.lookup m with
      | none => exact ih h'
      | some v =>
          by_cases hv : isNone v
          · simp only [hv, if_true]
            exact ih h'
          · simp only [hv, if_false, Bool.false_eq_true, List.lookup_cons]
            have : (n == m) = false := by simp [hne]
            simp only [this]
            exact ih h'

theorem lookup_append_of_none {β : Type} (n : String) (l1 l2 : List (String × β))
    (h : l1.lookup n = Option.none) : (l1 ++ l2).lookup n = l2.lookup n := by
  induction l1 with
  | nil => rfl
  | cons kv l ih =>
      obtain ⟨k, v⟩ := kv
      cases hbeq : n == k with
      | true => simp [List.lookup_cons, hbeq] at h
      | false =>
          simp only [List.lookup_cons, hbeq] at h
          rw [List.cons_append]
          simp only [List.lookup_cons, hbeq]
          exact ih h

theorem lookup_eq_none_of_not_mem_fst {β : Type} (n : String) (l : List (String × β))
    (h : n ∉ l.map Prod.fst) : l.lookup n = Option.none := by
  induction l with
  | nil => rfl
  | cons kv l ih =>
      obtain ⟨k, v⟩ := kv
      simp only [List.map_cons, List.mem_cons, not_or] at h
      have hbeq : (n == k) = false := by simp [h.1]
      simp only [List.lookup_cons, hbeq]
      exact ih h.2

theorem bindRequired_map_fst (ps : List ParamSpec) (args reqs : List (String × Py))
    (h : bindRequired ps args = some reqs) : reqs.map Prod.fst = ps.map ParamSpec.name := by
  induction ps generalizing reqs with
  | nil =>
      cases h
      rfl
  | cons p ps ih =>
      unfold bindRequired at h
      cases hl : args.lookup p.name with
      | none => rw [hl] at h; cases h
      | some v =>
          rw [hl] at h
          cases hr : bindRequired ps args with
          | none => rw [hr] at h; cases h
          | some rest =>
              rw [hr] at h
              cases h
              simp only [List.map_cons]
              rw [ih rest hr]

theorem lookup_optional_binding (ps : List ParamSpec) (g : ParamSpec → Py)
    (p : ParamSpec) (hp : p ∈ ps) (hnd : (ps.map ParamSpec.name).Nodup) :
    (ps.map (fun q => (q.name, g q))).lookup p.name = some (g p) := by
  induction ps with
  | nil => cases hp
  | cons q ps ih =>
      simp only [List.map_cons, List.lookup_cons]
      cases hp with
      | head => simp
      | tail _ hp' =>
          simp only [List.map_cons, List.nodup_cons] at hnd
          have hne : p.name ≠ q.name := by
            intro he
            exact hnd.1 (he ▸ List.mem_map_of_mem ParamSpec.name hp')
          have hbeq : (p.name == q.name) = false := by simp [hne]
          simp only [hbeq]
          exact ih hp' hnd.2

theorem eq_none_of_isNone {d : Py} (h : isNone d = true) : d = Py.none := by
  cases d <;> first | rfl | simp [isNone] at h

theorem bindArgs_lookup_omitted_optional
    (info : ToolInfo) (args locals : List (String × Py)) (p : ParamSpec)
    (hnd : (param_names info).Nodup)
    (hp : p ∈ info.optional_parameters)
    (homit : args.lookup p.name = Option.none)
    (hbind : bindArgs info args = some locals) :
    locals.lookup p.name = some p.default := by
  have hpn : p.name ∈ info.optional_parameters.map ParamSpec.name :=
    List.mem_map_of_mem ParamSpec.name hp
  have hnotreq : p.name ∉ info.required_parameters.map ParamSpec.name := by
    unfold param_names at hnd
    rcases List.nodup_append.mp hnd with ⟨_, _, hdisj⟩
    intro hmem
    exact hdisj hmem hpn
  have hndopt : (info.optional_parameters.map ParamSpec.name).Nodup := by
    unfold param_names at hnd
    exact (List.nodup_append.mp hnd).2.1
  unfold bindArgs at hbind
  by_cases hall : args.all (fun kv => kv.1 ∈ param_names info)
  · rw [if_pos hall] at hbind
    cases hreq : bindRequired info.required_parameters args with
    | none => rw [hreq] at hbind; cases hbind
    | some reqs =>
        rw [hreq] at hbind
        cases hbind
        have hreqnone : reqs.lookup p.name = Option.none := by
          apply lookup_eq_none_of_not_mem_fst
          rw [bindRequired_map_fst _ _ _ hreq]
          exact hnotreq
        rw [lookup_append_of_none _ _ _ hreqnone]
        rw [lookup_optional_binding info.optional_parameters
          (fun q => (args.lookup q.name).getD (optionalDefaultValue q)) p hp hndopt]
        rw [homit]
        rfl
  · rw [if_neg hall] at hbind
    cases hbind

/-! ## The claims -/

/-- C1: when the wrapped implementation raises during invocation, the
adapter's invocation body returns the diagnostic text, which contains the
tool's name and the failure description; the totality of `execute_tool`
(it returns a `String` in every case) is the embedding of "no exception
propagates out of the adapter; every invocation resolves to a text
value". -/
theorem claim_C1_error_containment
    (basePath : String) (info : ToolInfo) (impl : Impl)
    (locals : List (String × Py)) (e : String)
    (h : impl.run (call_params basePath info impl locals) = .error e) :
    execute_tool basePath info impl locals = errorMessage info.name e
    ∧ info.name.data <:+: (execute_tool basePath info impl locals).data
    ∧ e.data <:+: (execute_tool basePath info impl locals).data := by
  have hx : execute_tool basePath info impl locals = errorMessage info.name e := by
    unfold execute_tool
    rw [h]
  refine ⟨hx, ?_, ?_⟩
  · rw [hx]
    exact ⟨"❌ Error executing ".data, (": " ++ e).data, by
      simp [errorMessage, String.data_append, List.append_assoc]⟩
  · rw [hx]
    exact ⟨("❌ Error executing " ++ info.name ++ ": ").data, [], by
      simp [errorMessage, String.data_append, List.append_assoc]⟩

theorem claim_C1_witness :
    execute_tool "/base" ⟨"alpha", "", [], []⟩ ⟨[], fun _ => .error "boom"⟩ [] =
        errorMessage "alpha" "boom"
    ∧ "alpha".data <:+: (execute_tool "/base" ⟨"alpha", "", [], []⟩
        ⟨[], fun _ => .error "boom"⟩ []).data
    ∧ "boom".data <:+: (execute_tool "/base" ⟨"alpha", "", [], []⟩
        ⟨[], fun _ => .error "boom"⟩ []).data :=
  claim_C1_error_containment "/base" ⟨"alpha", "", [], []⟩
    ⟨[], fun _ => .error "boom"⟩ [] "boom" rfl

/-- C3 counterexample: the descriptor declares `data_path` as an optional
parameter with the non-null literal default `"/d"`, and the wrapped
implementation declares `data_path`.  A call omitting `data_path` binds
the descriptor default, line 197 keeps it (it is not `None`), so line
201's `'data_path' not in call_params` is false and the computed path is
never injected — the downstream mapping carries `"/d"`, not
`basePath ++ "/biomni_data/data_lake"`, refuting the claim's "if a call
omits that parameter, the wrapper adds the configured path". -/
theorem claim_C3_counterexample :
    bindArgs ⟨"t", "", [], [⟨"data_path", "str", "", Py.str "/d"⟩]⟩ [] =
        some [("data_path", Py.str "/d")]
    ∧ call_params "/base" ⟨"t", "", [], [⟨"data_path", "str", "", Py.str "/d"⟩]⟩
        ⟨["data_path"], fun _ => .ok Py.none⟩ [("data_path", Py.str "/d")] =
        [("data_path", Py.str "/d")]
    ∧ (call_params "/base" ⟨"t", "", [], [⟨"data_path", "str", "", Py.str "/d"⟩]⟩
        ⟨["data_path"], fun _ => .ok Py.none⟩ [("data_path", Py.str "/d")]).lookup
          "data_path" ≠ some (Py.str ("/base" ++ "/biomni_data/data_lake")) := by
  refine ⟨rfl, rfl, ?_⟩
  intro h
  rw [show (call_params "/base" ⟨"t", "", [], [⟨"data_path", "str", "", Py.str "/d"⟩]⟩
      ⟨["data_path"], fun _ => .ok Py.none⟩ [("data_path", Py.str "/d")]).lookup
        "data_path" = some (Py.str "/d") from rfl] at h
  injection h with h1
  injection h1 with h2
  exact absurd h2 (by decide)

/-- C3 as amended: when the wrapped implementation declares `data_path`
and the downstream mapping does not carry it, the wrapper appends the
entry `basePath ++ "/biomni_data/data_lake"` verbatim; the mapping lacks
that entry exactly when the call left `data_path` unsupplied — the
descriptor does not declare it, or declares it optional with a null
default and the caller omitted (or nulled) it.  When an omitting call's
descriptor instead carries a non-null literal default for `data_path`,
that default is forwarded and no injection occurs.  When the
implementation does not declare `data_path`, no entry is ever added. -/
theorem claim_C3_data_path_injection
    (basePath : String) (info : ToolInfo) (impl : Impl)
    (args locals : List (String × Py)) (p : ParamSpec) :
    ("data_path" ∈ impl.sigParams →
        (filterArgs (param_names info) locals).lookup "data_path" = Option.none →
        call_params basePath info impl locals =
          filterArgs (param_names info) locals ++
            [("data_path", Py.str (basePath ++ "/biomni_data/data_lake"))])
    ∧ ("data_path" ∉ impl.sigParams →
        call_params basePath info impl locals = filterArgs (param_names info) locals)
    ∧ ("data_path" ∉ param_names info →
        (filterArgs (param_names info) locals).lookup "data_path" = Option.none)
    ∧ ((param_names info).Nodup → p ∈ info.optional_parameters → p.name = "data_path" →
        args.lookup "data_path" = Option.none → bindArgs info args = some locals →
        (isNone p.default = true →
            (filterArgs (param_names info) locals).lookup "data_path" = Option.none)
        ∧ (isNone p.default = false →
            call_params basePath info impl locals = filterArgs (param_names info) locals
            ∧ (filterArgs (param_names info) locals).lookup "data_path" =
                some p.default)) := by
  refine ⟨?_, ?_, ?_, ?_⟩
  · intro hmem hnone
    unfold call_params injectDataPath
    rw [if_pos ⟨hmem, by rw [hnone]; rfl⟩]
  · intro hnmem
    unfold call_params injectDataPath
    rw [if_neg (fun hc => hnmem hc.1)]
  · intro hnmem
    exact lookup_filterArgs_of_not_mem _ _ _ hnmem
  · intro hnd hp hpn homit hbind
    have hl : locals.lookup "data_path" = some p.default := by
      rw [← hpn]
      exact bindArgs_lookup_omitted_optional info args locals p hnd hp
        (by rw [hpn]; exact homit) hbind
    constructor
    · intro hd
      apply lookup_filterArgs_of_dropped
      right
      rw [hl, eq_none_of_isNone hd]
    · intro hd
      have hkept : (filterArgs (param_names info) locals).lookup "data_path" =
          some p.default := by
        apply lookup_filterArgs_of_kept
        · rw [← hpn]
          unfold param_names
          exact List.mem_append.mpr (Or.inr (List.mem_map_of_mem ParamSpec.name hp))
        · exact hl
        · exact hd
      refine ⟨?_, hkept⟩
      unfold call_params injectDataPath
      rw [if_neg ?_]
      intro hc
      rw [hkept] at hc
      rcases hc with ⟨_, hc2⟩
      exact absurd hc2 (by simp)

theorem claim_C3_witness :
    (call_params "/base" ⟨"alpha", "", [], []⟩ ⟨["data_path"], fun _ => .ok Py.none⟩ [] =
      filterArgs (param_names ⟨"alpha", "", [], []⟩) [] ++
        [("data_path", Py.str ("/base" ++ "/biomni_data/data_lake"))])
    ∧ (call_params "/base" ⟨"t", "", [], [⟨"data_path", "str", "", Py.str "/d"⟩]⟩
          ⟨["data_path"], fun _ => .ok Py.none⟩ [("data_path", Py.str "/d")] =
        filterArgs (param_names ⟨"t", "", [], [⟨"data_path", "str", "", Py.str "/d"⟩]⟩)
          [("data_path", Py.str "/d")]
        ∧ (filterArgs (param_names ⟨"t", "", [], [⟨"data_path", "str", "", Py.str "/d"⟩]⟩)
            [("data_path", Py.str "/d")]).lookup "data_path" = some (Py.str "/d")) :=
  ⟨(claim_C3_data_path_injection "/base" ⟨"alpha", "", [], []⟩
      ⟨["data_path"], fun _ => .ok Py.none⟩ [] []
      ⟨"data_path", "str", "", Py.str "/d"⟩).1 (by simp) rfl,
   (claim_C3_data_path_injection "/base" ⟨"t", "", [], [⟨"data_path", "str", "", Py.str "/d"⟩]⟩
      ⟨["data_path"], fun _ => .ok Py.none⟩ [] [("data_path", Py.str "/d")]
      ⟨"data_path", "str", "", Py.str "/d"⟩).2.2.2
      (by decide) (List.mem_singleton.mpr rfl) rfl rfl rfl |>.2 rfl⟩

/-- C4: registering a name that is already registered is a no-op — the
registry is unchanged (in particular its size), and the first-registered
adapter stays reachable.  The Registry model is taken from §4.4 of the
spec because the live table lives in the external `FastMCP` library. -/
theorem claim_C4_duplicate_registration
    (reg : List (String × Adapter)) (n : String) (a b : Adapter)
    (hfresh : reg.lookup n = Option.none) :
    registerTool (registerTool reg n a) n b = registerTool reg n a
    ∧ (registerTool (registerTool reg n a) n b).length = (registerTool reg n a).length
    ∧ lookupTool (registerTool reg n a) n = some a := by
  have h1 : registerTool reg n a = reg ++ [(n, a)] := by
    unfold registerTool
    rw [hfresh]
    rfl
  have h2 : lookupTool (registerTool reg n a) n = some a := by
    unfold lookupTool
    rw [h1, lookup_append_of_none n reg [(n, a)] hfresh]
    simp [List.lookup_cons]
  have h3 : registerTool (registerTool reg n a) n b = registerTool reg n a := by
    unfold lookupTool at h2
    show (if (List.lookup n (registerTool reg n a)).isSome = true then registerTool reg n a
      else registerTool reg n a ++ [(n, b)]) = registerTool reg n a
    rw [h2]
    rfl
  exact ⟨h3, by rw [h3], h2⟩

theorem claim_C4_witness :
    registerTool (registerTool [] "t" ⟨⟨"t", "", [], []⟩, ⟨[], fun _ => .ok Py.none⟩⟩)
        "t" ⟨⟨"u", "", [], []⟩, ⟨[], fun _ => .ok Py.none⟩⟩ =
      registerTool [] "t" ⟨⟨"t", "", [], []⟩, ⟨[], fun _ => .ok Py.none⟩⟩
    ∧ (registerTool (registerTool [] "t" ⟨⟨"t", "", [], []⟩, ⟨[], fun _ => .ok Py.none⟩⟩)
        "t" ⟨⟨"u", "", [], []⟩, ⟨[], fun _ => .ok Py.none⟩⟩).length =
      (registerTool [] "t" ⟨⟨"t", "", [], []⟩, ⟨[], fun _ => .ok Py.none⟩⟩).length
    ∧ lookupTool (registerTool [] "t" ⟨⟨"t", "", [], []⟩, ⟨[], fun _ => .ok Py.none⟩⟩) "t" =
      some ⟨⟨"t", "", [], []⟩, ⟨[], fun _ => .ok Py.none⟩⟩ :=
  claim_C4_duplicate_registration [] "t"
    ⟨⟨"t", "", [], []⟩, ⟨[], fun _ => .ok Py.none⟩⟩
    ⟨⟨"u", "", [], []⟩, ⟨[], fun _ => .ok Py.none⟩⟩ rfl

/-- C5: a missing selection file, a JSON parse error and any other read
failure all yield the documented fallback, which consists of exactly one
module exposing exactly `run_python_repl` and `read_function_source_code`;
`load_tools_config` is total, embedding "no exception escapes the loading
step". -/
theorem claim_C5_fallback (e m : String) (line col : Nat) :
    load_tools_config .missing = fallback_config
    ∧ load_tools_config (.unreadable e) = fallback_config
    ∧ load_tools_config (.invalidJson line col m) = fallback_config
    ∧ fallback_config = Py.dict [("biomni.tool.support_tools",
        Py.list [Py.str "run_python_repl", Py.str "read_function_source_code"])] :=
  ⟨rfl, rfl, rfl, rfl⟩

/-- C6: the generated function accepts exactly the declared parameter
names — a call supplying any other keyword is rejected, and the bound
`locals()` lists every declared name, all required parameters first and
then all optional parameters, each in descriptor order. -/
theorem claim_C6_exact_parameters (info : ToolInfo) :
    param_names info =
      info.required_parameters.map ParamSpec.name ++
        info.optional_parameters.map ParamSpec.name
    ∧ ∀ args locals, bindArgs info args = some locals →
        (∀ k v, (k, v) ∈ args → k ∈ param_names info)
        ∧ locals.map Prod.fst = param_names info := by
  refine ⟨rfl, ?_⟩
  intro args locals h
  unfold bindArgs at h
  by_cases hall : args.all (fun kv => kv.1 ∈ param_names info)
  · rw [if_pos hall] at h
    constructor
    · intro k v hkv
      have := List.all_eq_true.mp hall (k, v) hkv
      simpa using this
    · cases hreq : bindRequired info.required_parameters args with
      | none => rw [hreq] at h; cases h
      | some reqs =>
          rw [hreq] at h
          cases h
          rw [List.map_append, bindRequired_map_fst _ _ _ hreq, List.map_map]
          rfl
  · rw [if_neg hall] at h
    cases h

theorem claim_C6_witness :
    (∀ k v, (k, v) ∈ [("x", Py.int 7)] →
        k ∈ param_names ⟨"alpha", "", [⟨"x", "int", "", Py.none⟩], [⟨"y", "str", "", Py.none⟩]⟩)
    ∧ ([("x", Py.int 7), ("y", Py.none)].map Prod.fst =
        param_names ⟨"alpha", "", [⟨"x", "int", "", Py.none⟩], [⟨"y", "str", "", Py.none⟩]⟩) :=
  (claim_C6_exact_parameters
      ⟨"alpha", "", [⟨"x", "int", "", Py.none⟩], [⟨"y", "str", "", Py.none⟩]⟩).2
    [("x", Py.int 7)] [("x", Py.int 7), ("y", Py.none)] rfl

/-- C7 counterexample: an optional `bool` parameter with no literal
default is synthesized with the plain boolean type, not with the optional
form of the mapped type that the claim requires. -/
theorem claim_C7_counterexample :
    optionalSynthType ⟨"flag", "bool", "", Py.none⟩ = SynthType.plain JsonType.boolean
    ∧ optionalSynthType ⟨"flag", "bool", "", Py.none⟩ ≠
        SynthType.optionalOf (mapParamType "bool") := by
  constructor
  · rfl
  · intro h
    cases h

/-- C7 as amended: the base mapping is `str`→string, `int`→integer,
`float`→floating-point, `bool`→boolean with any other declared type
falling back to string; an optional parameter of non-boolean declared
type is synthesized with the optional form of the mapped type when the
descriptor carries no literal default and with the plain mapped type
otherwise, while an optional boolean parameter always keeps the plain
boolean type; the generated default is the descriptor's literal default
when present and "no value" (`None`) otherwise. -/
theorem claim_C7_type_mapping (p : ParamSpec) :
    (mapParamType "str" = JsonType.string
      ∧ mapParamType "int" = JsonType.integer
      ∧ mapParamType "float" = JsonType.floating
      ∧ mapParamType "bool" = JsonType.boolean)
    ∧ (p.type ≠ "str" → p.type ≠ "int" → p.type ≠ "float" → p.type ≠ "bool" →
        mapParamType p.type = JsonType.string)
    ∧ requiredSynthType p = SynthType.plain (mapParamType p.type)
    ∧ (p.type ≠ "bool" → isNone p.default = true →
        optionalSynthType p = SynthType.optionalOf (mapParamType p.type))
    ∧ (p.type ≠ "bool" → isNone p.default = false →
        optionalSynthType p = SynthType.plain (mapParamType p.type))
    ∧ (p.type = "bool" → optionalSynthType p = SynthType.plain JsonType.boolean)
    ∧ optionalDefaultValue p = p.default := by
  refine ⟨⟨rfl, rfl, rfl, rfl⟩, ?_, rfl, ?_, ?_, ?_, rfl⟩
  · intro h1 h2 h3 h4
    unfold mapParamType
    rw [if_neg h1, if_neg h2, if_neg h3, if_neg h4]
  · intro hb hd
    unfold optionalSynthType
    rw [if_neg hb, if_pos hd]
  · intro hb hd
    unfold optionalSynthType
    rw [if_neg hb, hd]
    rfl
  · intro hb
    unfold optionalSynthType
    rw [if_pos hb]

theorem claim_C7_witness :
    optionalSynthType ⟨"q", "float", "", Py.none⟩ =
      SynthType.optionalOf (mapParamType "float") :=
  (claim_C7_type_mapping ⟨"q", "float", "", Py.none⟩).2.2.2.1 (by decide) rfl

/-- C2 counterexample: descriptor `alpha` has one optional parameter `x`
of type `int` with the literal default `5`.  A call omitting `x` binds
`x = 5` in the generated function, and the filtered mapping passed to the
wrapped implementation does contain an entry for `x` — the claim's
"contains no entry for that parameter's name" fails whenever the optional
parameter carries a non-null literal default. -/
theorem claim_C2_counterexample :
    bindArgs ⟨"alpha", "", [], [⟨"x", "int", "", Py.int 5⟩]⟩ [] =
        some [("x", Py.int 5)]
    ∧ (filterArgs (param_names ⟨"alpha", "", [], [⟨"x", "int", "", Py.int 5⟩]⟩)
        [("x", Py.int 5)]).lookup "x" = some (Py.int 5)
    ∧ (filterArgs (param_names ⟨"alpha", "", [], [⟨"x", "int", "", Py.int 5⟩]⟩)
        [("x", Py.int 5)]).lookup "x" ≠ Option.none := by
  refine ⟨rfl, rfl, ?_⟩
  intro h
  exact Option.noConfusion ((rfl :
    (filterArgs (param_names ⟨"alpha", "", [], [⟨"x", "int", "", Py.int 5⟩]⟩)
        [("x", Py.int 5)]).lookup "x" = some (Py.int 5)) ▸ h)

/-- C2 as amended: when a call omits an optional parameter whose
descriptor carries no (non-null) literal default, the argument mapping
passed to the wrapped implementation contains no entry for that
parameter's name; when the descriptor carries a literal default, the
mapping contains that default value for the name; and in no case does the
mapping carry an explicit null for any name. -/
theorem claim_C2_omitted_optional
    (info : ToolInfo) (args locals : List (String × Py)) (p : ParamSpec)
    (hnd : (param_names info).Nodup)
    (hp : p ∈ info.optional_parameters)
    (homit : args.lookup p.name = Option.none)
    (hbind : bindArgs info args = some locals) :
    (isNone p.default = true →
        (filterArgs (param_names info) locals).lookup p.name = Option.none)
    ∧ (isNone p.default = false →
        (filterArgs (param_names info) locals).lookup p.name = some p.default)
    ∧ ∀ k v, (k, v) ∈ filterArgs (param_names info) locals → isNone v = false := by
  have hpn : p.name ∈ info.optional_parameters.map ParamSpec.name :=
    List.mem_map_of_mem ParamSpec.name hp
  have hnotreq : p.name ∉ info.required_parameters.map ParamSpec.name := by
    unfold param_names at hnd
    rcases List.nodup_append.mp hnd with ⟨_, _, hdisj⟩
    intro hmem
    exact hdisj hmem hpn
  have hndopt : (info.optional_parameters.map ParamSpec.name).Nodup := by
    unfold param_names at hnd
    exact (List.nodup_append.mp hnd).2.1
  have hlocals : locals.lookup p.name = some p.default :=
    bindArgs_lookup_omitted_optional info args locals p hnd hp homit hbind
  refine ⟨?_, ?_, fun k v h => filterArgs_values_not_none _ _ k v h⟩
  · intro hd
    apply lookup_filterArgs_of_dropped
    right
    rw [hlocals, eq_none_of_isNone hd]
  · intro hd
    apply lookup_filterArgs_of_kept
    · unfold param_names
      exact List.mem_append.mpr (Or.inr hpn)
    · exact hlocals
    · exact hd

theorem claim_C2_witness :
    ((isNone (Py.str "d") = true →
        (filterArgs (param_names ⟨"alpha", "", [], [⟨"x", "str", "", Py.str "d"⟩]⟩)
          [("x", Py.str "d")]).lookup "x" = Option.none)
    ∧ (isNone (Py.str "d") = false →
        (filterArgs (param_names ⟨"alpha", "", [], [⟨"x", "str", "", Py.str "d"⟩]⟩)
          [("x", Py.str "d")]).lookup "x" = some (Py.str "d"))
    ∧ ∀ k v, (k, v) ∈ filterArgs (param_names ⟨"alpha", "", [], [⟨"x", "str", "", Py.str "d"⟩]⟩)
          [("x", Py.str "d")] → isNone v = false) :=
  claim_C2_omitted_optional ⟨"alpha", "", [], [⟨"x", "str", "", Py.str "d"⟩]⟩
    [] [("x", Py.str "d")] ⟨"x", "str", "", Py.str "d"⟩
    (by decide) (List.mem_singleton.mpr rfl) rfl rfl

/-- C9: every argument whose supplied value is `None` is dropped before
invoking the implementation — required parameters included — and no entry
of the downstream mapping is ever `None`; in particular an explicit null
for `data_path` is dropped and, when the implementation declares that
parameter, replaced by the injected computed path. -/
theorem claim_C9_null_arguments_dropped
    (basePath : String) (info : ToolInfo) (impl : Impl)
    (locals : List (String × Py)) (n : String) :
    (locals.lookup n = some Py.none →
        (filterArgs (param_names info) locals).lookup n = Option.none)
    ∧ (∀ k v, (k, v) ∈ filterArgs (param_names info) locals → isNone v = false)
    ∧ (locals.lookup "data_path" = some Py.none → "data_path" ∈ impl.sigParams →
        (call_params basePath info impl locals).lookup "data_path" =
          some (Py.str (basePath ++ "/biomni_data/data_lake"))) := by
  refine ⟨?_, fun k v h => filterArgs_values_not_none _ _ k v h, ?_⟩
  · intro h
    exact lookup_filterArgs_of_dropped _ _ _ (Or.inr h)
  · intro hnull hsig
    have hfil : (filterArgs (param_names info) locals).lookup "data_path" = Option.none :=
      lookup_filterArgs_of_dropped _ _ _ (Or.inr hnull)
    unfold call_params injectDataPath
    rw [if_pos ⟨hsig, by rw [hfil]; rfl⟩]
    rw [lookup_append_of_none _ _ _ hfil]
    simp [List.lookup_cons]

theorem claim_C9_witness :
    ((filterArgs (param_names ⟨"alpha", "", [⟨"data_path", "str", "", Py.none⟩], []⟩)
        [("data_path", Py.none)]).lookup "data_path" = Option.none)
    ∧ ((call_params "/base" ⟨"alpha", "", [⟨"data_path", "str", "", Py.none⟩], []⟩
        ⟨["data_path"], fun _ => .ok Py.none⟩ [("data_path", Py.none)]).lookup "data_path" =
          some (Py.str ("/base" ++ "/biomni_data/data_lake"))) :=
  ⟨(claim_C9_null_arguments_dropped "/base"
      ⟨"alpha", "", [⟨"data_path", "str", "", Py.none⟩], []⟩
      ⟨["data_path"], fun _ => .ok Py.none⟩ [("data_path", Py.none)] "data_path").1 rfl,
   (claim_C9_null_arguments_dropped "/base"
      ⟨"alpha", "", [⟨"data_path", "str", "", Py.none⟩], []⟩
      ⟨["data_path"], fun _ => .ok Py.none⟩ [("data_path", Py.none)] "data_path").2.2 rfl
      (by simp)⟩

/-- C10: a selected tool name that matches none of the module's
descriptors is silently skipped — the per-module registered/failed
counters are the same as if the name had not been selected at all. -/
theorem claim_C10_unknown_selection_skipped
    (tools : List ToolInfo) (sel : List String) (ok : String → Bool) (x : String)
    (hx : x ∉ tools.map ToolInfo.name) :
    module_counts tools (x :: sel) ok = module_counts tools sel ok := by
  unfold module_counts
  have key : ∀ (ts : List ToolInfo) (acc : Nat × Nat), x ∉ ts.map ToolInfo.name →
      ts.foldl
        (fun acc t =>
          if t.name ∈ x :: sel then
            if ok t.name then (acc.1 + 1, acc.2) else (acc.1, acc.2 + 1)
          else acc) acc =
      ts.foldl
        (fun acc t =>
          if t.name ∈ sel then
            if ok t.name then (acc.1 + 1, acc.2) else (acc.1, acc.2 + 1)
          else acc) acc := by
    intro ts
    induction ts with
    | nil => intro acc _; rfl
    | cons t ts ih =>
        intro acc hmem
        simp only [List.map_cons, List.mem_cons, not_or] at hmem
        have hne : t.name ≠ x := fun he => hmem.1 he.symm
        rw [List.foldl_cons, List.foldl_cons]
        by_cases hmem2 : t.name ∈ sel
        · rw [if_pos (List.mem_cons.mpr (Or.inr hmem2)), if_pos hmem2]
          exact ih _ hmem.2
        · have hno : t.name ∉ x :: sel := by
            intro h
            rcases List.mem_cons.mp h with h1 | h1
            · exact hne h1
            · exact hmem2 h1
          rw [if_neg hno, if_neg hmem2]
          exact ih _ hmem.2
  exact key tools (0, 0) hx

theorem claim_C10_witness :
    module_counts [⟨"a", "", [], []⟩, ⟨"b", "", [], []⟩] ("ghost" :: ["a"]) (fun _ => true) =
      module_counts [⟨"a", "", [], []⟩, ⟨"b", "", [], []⟩] ["a"] (fun _ => true) :=
  claim_C10_unknown_selection_skipped [⟨"a", "", [], []⟩, ⟨"b", "", [], []⟩]
    ["a"] (fun _ => true) "ghost" (by decide)

/-! ## Lemmas for the JSON round trip: decimal digits -/

theorem digitChar_isDigit {d : Nat} (h : d < 10) : (Nat.digitChar d).isDigit = true := by
  interval_cases d <;> decide

theorem digitChar_val {d : Nat} (h : d < 10) : (Nat.digitChar d).toNat - '0'.toNat = d := by
  interval_cases d <;> decide

theorem hexVal_digitChar {d : Nat} (h : d < 16) : hexVal (Nat.digitChar d) = some d := by
  interval_cases d <;> decide

theorem natReprCore_append (fuel : Nat) : ∀ (n : Nat) (acc : List Char),
    natReprCore fuel n acc = natReprCore fuel n [] ++ acc := by
  induction fuel with
  | zero => intro n acc; rfl
  | succ fuel ih =>
      intro n acc
      unfold natReprCore
      by_cases h : n < 10
      · rw [if_pos h, if_pos h]
        rfl
      · rw [if_neg h, if_neg h]
        rw [ih (n / 10) (Nat.digitChar (n % 10) :: acc),
          ih (n / 10) [Nat.digitChar (n % 10)]]
        simp [List.append_assoc]

theorem natReprCore_fuel {n : Nat} : ∀ {fuel1 fuel2 : Nat} (acc : List Char),
    n < fuel1 → n < fuel2 → natReprCore fuel1 n acc = natReprCore fuel2 n acc := by
  induction n using Nat.strong_induction_on with
  | _ n ih =>
      intro fuel1 fuel2 acc h1 h2
      cases fuel1 with
      | zero => omega
      | succ f1 =>
          cases fuel2 with
          | zero => omega
          | succ f2 =>
              unfold natReprCore
              by_cases h : n < 10
              · rw [if_pos h, if_pos h]
              · rw [if_neg h, if_neg h]
                have hlt : n / 10 < n := Nat.div_lt_self (by omega) (by omega)
                exact ih (n / 10) hlt _ (by omega) (by omega)

theorem natRepr_ne_nil (n : Nat) : natRepr n ≠ [] := by
  unfold natRepr
  unfold natReprCore
  by_cases h : n < 10
  · rw [if_pos h]
    simp
  · rw [if_neg h, natReprCore_append]
    simp

theorem natReprCore_all_digits (fuel : Nat) : ∀ (n : Nat) (acc : List Char),
    (∀ c ∈ acc, c.isDigit = true) →
    ∀ c ∈ natReprCore fuel n acc, c.isDigit = true := by
  induction fuel with
  | zero => intro n acc hacc; exact hacc
  | succ fuel ih =>
      intro n acc hacc
      unfold natReprCore
      by_cases h : n < 10
      · rw [if_pos h]
        intro c hc
        rcases List.mem_cons.mp hc with rfl | hc
        · exact digitChar_isDigit h
        · exact hacc c hc
      · rw [if_neg h]
        apply ih
        intro c hc
        rcases List.mem_cons.mp hc with rfl | hc
        · exact digitChar_isDigit (Nat.mod_lt _ (by omega))
        · exact hacc c hc

theorem natRepr_all_digits (n : Nat) : ∀ c ∈ natRepr n, c.isDigit = true :=
  natReprCore_all_digits (n + 1) n [] (by simp)

theorem digitsVal_append_one (l : List Char) (c : Char) :
    digitsVal (l ++ [c]) = digitsVal l * 10 + (c.toNat - '0'.toNat) := by
  unfold digitsVal
  rw [List.foldl_append]
  rfl

theorem digitsVal_natRepr (n : Nat) : digitsVal (natRepr n) = n := by
  induction n using Nat.strong_induction_on with
  | _ n ih =>
      unfold natRepr
      unfold natReprCore
      by_cases h : n < 10
      · rw [if_pos h]
        show 0 * 10 + ((Nat.digitChar n).toNat - '0'.toNat) = n
        have := digitChar_val h
        omega
      · rw [if_neg h, natReprCore_append]
        have hlt : n / 10 < n := Nat.div_lt_self (by omega) (by omega)
        rw [natReprCore_fuel [] (by omega) (Nat.lt_succ_self (n / 10))]
        rw [digitsVal_append_one]
        rw [show natReprCore (n / 10).succ (n / 10) [] = natRepr (n / 10) from rfl]
        rw [ih (n / 10) hlt]
        have := digitChar_val (Nat.mod_lt n (show 0 < 10 by omega))
        omega

/-! ## Lemmas for the JSON round trip: number tokens -/

theorem isNumChar_of_isDigit {c : Char} (h : c.isDigit = true) : isNumChar c = true := by
  unfold isNumChar
  rw [h]
  rfl

theorem isFloatMark_eq_false_of_isDigit {c : Char} (h : c.isDigit = true) :
    isFloatMark c = false := by
  unfold isFloatMark
  by_cases h1 : c = '.'
  · subst h1; exact absurd h (by decide)
  by_cases h2 : c = 'e'
  · subst h2; exact absurd h (by decide)
  by_cases h3 : c = 'E'
  · subst h3; exact absurd h (by decide)
  simp [h1, h2, h3]

theorem takeWhile_append_all {p : Char → Bool} (l r : List Char)
    (h : ∀ c ∈ l, p c = true) : (l ++ r).takeWhile p = l ++ r.takeWhile p := by
  induction l with
  | nil => rfl
  | cons c l ih =>
      rw [List.cons_append, List.takeWhile_cons, h c (List.mem_cons_self c l), if_pos rfl]
      rw [ih (fun c hc => h c (List.mem_cons_of_mem _ hc))]
      rfl

theorem dropWhile_append_all {p : Char → Bool} (l r : List Char)
    (h : ∀ c ∈ l, p c = true) : (l ++ r).dropWhile p = r.dropWhile p := by
  induction l with
  | nil => rfl
  | cons c l ih =>
      rw [List.cons_append, List.dropWhile_cons, h c (List.mem_cons_self c l), if_pos rfl]
      exact ih (fun c hc => h c (List.mem_cons_of_mem _ hc))

theorem takeWhile_num_nil {rest : List Char} (h : numBoundary rest) :
    rest.takeWhile isNumChar = [] := by
  rcases h with rfl | ⟨c, r, rfl, hc⟩
  · rfl
  · rw [List.takeWhile_cons, hc]
    rfl

theorem dropWhile_num_id {rest : List Char} (h : numBoundary rest) :
    rest.dropWhile isNumChar = rest := by
  rcases h with rfl | ⟨c, r, rfl, hc⟩
  · rfl
  · rw [List.dropWhile_cons, hc]
    rfl

theorem intRepr_ne_nil (n : Int) : intRepr n ≠ [] := by
  cases n with
  | ofNat m => exact natRepr_ne_nil m
  | negSucc m => simp [intRepr]

theorem intRepr_all_numChar (n : Int) : ∀ c ∈ intRepr n, isNumChar c = true := by
  cases n with
  | ofNat m =>
      intro c hc
      exact isNumChar_of_isDigit (natRepr_all_digits m c hc)
  | negSucc m =>
      intro c hc
      rcases List.mem_cons.mp hc with rfl | hc
      · rfl
      · exact isNumChar_of_isDigit (natRepr_all_digits (m + 1) c hc)

theorem intRepr_no_floatMark (n : Int) : (intRepr n).any isFloatMark = false := by
  rw [List.any_eq_false]
  cases n with
  | ofNat m =>
      intro c hc
      rw [isFloatMark_eq_false_of_isDigit (natRepr_all_digits m c hc)]
      simp
  | negSucc m =>
      intro c hc
      rcases List.mem_cons.mp hc with rfl | hc
      · decide
      · rw [isFloatMark_eq_false_of_isDigit (natRepr_all_digits (m + 1) c hc)]
        simp

theorem parseIntTok_natRepr (m : Nat) : parseIntTok (natRepr m) = some (m : Int) := by
  cases hnr : natRepr m with
  | nil => exact absurd hnr (natRepr_ne_nil m)
  | cons c t =>
      have hc : c.isDigit = true := natRepr_all_digits m c (by rw [hnr]; exact List.mem_cons_self c t)
      have hcd : ¬(c = '-') := by
        intro he
        subst he
        exact absurd hc (by decide)
      have hall : (c :: t).all Char.isDigit = true := by
        rw [← hnr]
        exact List.all_eq_true.mpr (natRepr_all_digits m)
      simp only [parseIntTok]
      rw [if_neg hcd, if_pos hall]
      rw [← hnr, digitsVal_natRepr]

theorem parseIntTok_intRepr (n : Int) : parseIntTok (intRepr n) = some n := by
  cases n with
  | ofNat m => exact parseIntTok_natRepr m
  | negSucc m =>
      show parseIntTok ('-' :: natRepr (m + 1)) = some (Int.negSucc m)
      simp only [parseIntTok]
      rw [if_pos trivial]
      have hne : natRepr (m + 1) ≠ [] := natRepr_ne_nil (m + 1)
      have hall : (natRepr (m + 1)).all Char.isDigit = true :=
        List.all_eq_true.mpr (natRepr_all_digits (m + 1))
      rw [if_pos ⟨hne, hall⟩]
      rw [digitsVal_natRepr]
      congr 1

theorem parseNumber_intRepr (n : Int) (rest : List Char) (h : numBoundary rest) :
    parseNumber (intRepr n ++ rest) = some (Py.int n, rest) := by
  unfold parseNumber
  rw [takeWhile_append_all _ _ (intRepr_all_numChar n),
    dropWhile_append_all _ _ (intRepr_all_numChar n),
    takeWhile_num_nil h, dropWhile_num_id h, List.append_nil]
  rw [if_neg (intRepr_ne_nil n)]
  rw [intRepr_no_floatMark n]
  simp only [Bool.false_eq_true, if_false]
  rw [parseIntTok_intRepr]
  rfl

theorem parseNumber_wfLit (lit rest : List Char) (hwf : wfLit lit = true)
    (h : numBoundary rest) : parseNumber (lit ++ rest) = some (Py.float lit, rest) := by
  unfold wfLit at hwf
  rw [Bool.and_eq_true, Bool.and_eq_true] at hwf
  obtain ⟨⟨hne, hall⟩, hany⟩ := hwf
  have hall' : ∀ c ∈ lit, isNumChar c = true := List.all_eq_true.mp hall
  have hne' : lit ≠ [] := by
    intro he
    rw [he] at hne
    exact absurd hne (by decide)
  unfold parseNumber
  rw [takeWhile_append_all _ _ hall', dropWhile_append_all _ _ hall',
    takeWhile_num_nil h, dropWhile_num_id h, List.append_nil]
  rw [if_neg hne', hany]
  rfl

/-! ## Lemmas for the JSON round trip: string literals -/

theorem stripLit_append (lit rest : List Char) : stripLit lit (lit ++ rest) = some rest := by
  induction lit with
  | nil => rfl
  | cons p ps ih =>
      rw [List.cons_append]
      unfold stripLit
      rw [if_pos rfl]
      exact ih

theorem parseStringBody_esc (s rest : List Char) :
    parseStringBody (escString s ++ '"' :: rest) = some (s, rest) := by
  induction s with
  | nil =>
      show parseStringBody ([] ++ '"' :: rest) = some ([], rest)
      rw [List.nil_append, parseStringBody.eq_def]
      simp
  | cons c s ih =>
      have hstep : escString (c :: s) = escChar c ++ escString s := rfl
      rw [hstep, List.append_assoc]
      by_cases h1 : c = '\\'
      · subst h1
        rw [show escChar '\\' = ['\\', '\\'] from rfl]
        simp only [List.cons_append, List.nil_append]
        rw [parseStringBody.eq_def]
        simp [unescChar, ih]
      by_cases h2 : c = '"'
      · subst h2
        rw [show escChar '"' = ['\\', '"'] from rfl]
        simp only [List.cons_append, List.nil_append]
        rw [parseStringBody.eq_def]
        simp [unescChar, ih]
      by_cases h3 : c = '\x08'
      · subst h3
        rw [show escChar '\x08' = ['\\', 'b'] from rfl]
        simp only [List.cons_append, List.nil_append]
        rw [parseStringBody.eq_def]
        simp [unescChar, ih]
      by_cases h4 : c = '\x0c'
      · subst h4
        rw [show escChar '\x0c' = ['\\', 'f'] from rfl]
        simp only [List.cons_append, List.nil_append]
        rw [parseStringBody.eq_def]
        simp [unescChar, ih]
      by_cases h5 : c = '\n'
      · subst h5
        rw [show escChar '\n' = ['\\', 'n'] from rfl]
        simp only [List.cons_append, List.nil_append]
        rw [parseStringBody.eq_def]
        simp [unescChar, ih]
      by_cases h6 : c = '\r'
      · subst h6
        rw [show escChar '\r' = ['\\', 'r'] from rfl]
        simp only [List.cons_append, List.nil_append]
        rw [parseStringBody.eq_def]
        simp [unescChar, ih]
      by_cases h7 : c = '\t'
      · subst h7
        rw [show escChar '\t' = ['\\', 't'] from rfl]
        simp only [List.cons_append, List.nil_append]
        rw [parseStringBody.eq_def]
        simp [unescChar, ih]
      by_cases h8 : c.toNat < 32
      · have he : escChar c =
            ['\\', 'u', '0', '0', Nat.digitChar (c.toNat / 16), Nat.digitChar (c.toNat % 16)] := by
          unfold escChar
          rw [if_neg h1, if_neg h2, if_neg h3, if_neg h4, if_neg h5, if_neg h6, if_neg h7,
            if_pos h8]
        have hd1 : hexVal (Nat.digitChar (c.toNat / 16)) = some (c.toNat / 16) :=
          hexVal_digitChar (by omega)
        have hd2 : hexVal (Nat.digitChar (c.toNat % 16)) = some (c.toNat % 16) :=
          hexVal_digitChar (by omega)
        have h0 : hexVal '0' = some 0 := rfl
        rw [he]
        simp only [List.cons_append, List.nil_append]
        rw [parseStringBody.eq_def]
        simp [h0, hd1, hd2, ih]
        rw [show c.toNat / 16 * 16 + c.toNat % 16 = c.toNat by omega, Char.ofNat_toNat]
      · have he : escChar c = [c] := by
          unfold escChar
          rw [if_neg h1, if_neg h2, if_neg h3, if_neg h4, if_neg h5, if_neg h6, if_neg h7,
            if_neg h8]
        rw [he]
        simp only [List.cons_append, List.nil_append]
        rw [parseStringBody.eq_def]
        simp [h1, h2, ih]

/-! ## Lemmas for the JSON round trip: whitespace and heads -/

theorem skipWs_cons_of_ws {c : Char} (l : List Char) (h : isWs c = true) :
    skipWs (c :: l) = skipWs l := by
  simp [skipWs, List.dropWhile_cons, h]

theorem skipWs_cons_of_not {c : Char} (l : List Char) (h : isWs c = false) :
    skipWs (c :: l) = c :: l := by
  simp [skipWs, List.dropWhile_cons, h]

theorem skipWs_replicate (n : Nat) (l : List Char) :
    skipWs (List.replicate n ' ' ++ l) = skipWs l := by
  induction n with
  | zero => rfl
  | succ n ih =>
      rw [List.replicate_succ, List.cons_append, skipWs_cons_of_ws _ (by decide)]
      exact ih

theorem skipWs_skipWs (l : List Char) : skipWs (skipWs l) = skipWs l := by
  induction l with
  | nil => rfl
  | cons c l ih =>
      cases h : isWs c with
      | true =>
          rw [skipWs_cons_of_ws _ h]
          exact ih
      | false =>
          rw [skipWs_cons_of_not _ h, skipWs_cons_of_not _ h]

theorem parseVal_skipWs (fuel : Nat) (l : List Char) :
    parseVal fuel (skipWs l) = parseVal fuel l := by
  cases fuel with
  | zero => rfl
  | succ fuel =>
      simp only [parseVal.eq_def]
      rw [skipWs_skipWs]

theorem parseVal_succ (fuel : Nat) (l : List Char) :
    parseVal (fuel + 1) l =
      match skipWs l with
      | [] => Option.none
      | c :: r =>
          if c = '\x7b' then
            match skipWs r with
            | [] => Option.none
            | c2 :: r2 =>
                if c2 = '\x7d' then some (.dict [], r2)
                else (parseMembers fuel (c2 :: r2)).map (fun mr => ((.dict mr.1 : Py), mr.2))
          else if c = '[' then
            match skipWs r with
            | [] => Option.none
            | c2 :: r2 =>
                if c2 = ']' then some (.list [], r2)
                else (parseElems fuel (c2 :: r2)).map (fun er => ((.list er.1 : Py), er.2))
          else if c = '"' then
            (parseStringBody r).map (fun sr => ((.str (String.mk sr.1) : Py), sr.2))
          else if c = 't' then
            (stripLit ['r', 'u', 'e'] r).map (fun r1 => ((.bool true : Py), r1))
          else if c = 'f' then
            (stripLit ['a', 'l', 's', 'e'] r).map (fun r1 => ((.bool false : Py), r1))
          else if c = 'n' then
            (stripLit ['u', 'l', 'l'] r).map (fun r1 => ((.none : Py), r1))
          else parseNumber (c :: r) := by
  rw [parseVal.eq_def]

theorem parseMembers_succ (fuel : Nat) (l : List Char) :
    parseMembers (fuel + 1) l =
      match skipWs l with
      | [] => Option.none
      | c :: r =>
          if c = '"' then
            match parseStringBody r with
            | some (k, r1) =>
                match skipWs r1 with
                | [] => Option.none
                | c2 :: r2 =>
                    if c2 = ':' then
                      match parseVal fuel r2 with
                      | some (v, r3) =>
                          match skipWs r3 with
                          | [] => Option.none
                          | c4 :: r4 =>
                              if c4 = ',' then
                                (parseMembers fuel r4).map
                                  (fun mr => ((String.mk k, v) :: mr.1, mr.2))
                              else if c4 = '\x7d' then some ([(String.mk k, v)], r4)
                              else Option.none
                      | Option.none => Option.none
                    else Option.none
            | Option.none => Option.none
          else Option.none := by
  rw [parseMembers.eq_def]

theorem parseElems_succ (fuel : Nat) (l : List Char) :
    parseElems (fuel + 1) l =
      match parseVal fuel l with
      | some (v, r) =>
          match skipWs r with
          | [] => Option.none
          | c :: r2 =>
              if c = ',' then
                (parseElems fuel r2).map (fun er => (v :: er.1, er.2))
              else if c = ']' then some ([v], r2)
              else Option.none
      | Option.none => Option.none := by
  rw [parseElems.eq_def]

theorem parseMembers_skipWs (fuel : Nat) (l : List Char) :
    parseMembers fuel (skipWs l) = parseMembers fuel l := by
  cases fuel with
  | zero => rfl
  | succ fuel =>
      rw [parseMembers_succ, parseMembers_succ, skipWs_skipWs]

theorem parseElems_skipWs (fuel : Nat) (l : List Char) :
    parseElems fuel (skipWs l) = parseElems fuel l := by
  cases fuel with
  | zero => rfl
  | succ fuel =>
      rw [parseElems_succ, parseElems_succ, parseVal_skipWs]

theorem isWs_eq_false_of_isDigit {c : Char} (h : c.isDigit = true) : isWs c = false := by
  unfold isWs
  by_cases h1 : c = ' '
  · subst h1; exact absurd h (by decide)
  by_cases h2 : c = '\n'
  · subst h2; exact absurd h (by decide)
  by_cases h3 : c = '\t'
  · subst h3; exact absurd h (by decide)
  by_cases h4 : c = '\r'
  · subst h4; exact absurd h (by decide)
  simp [h1, h2, h3, h4]

theorem ne_rbracket_of_isDigit {c : Char} (h : c.isDigit = true) : ¬(c = ']') := by
  intro he
  subst he
  exact absurd h (by decide)

theorem isWs_eq_false_of_isNumChar {c : Char} (h : isNumChar c = true) : isWs c = false := by
  unfold isNumChar at h
  simp only [Bool.or_eq_true, decide_eq_true_eq] at h
  rcases h with ((((h | h) | h) | h) | h) | h
  · exact isWs_eq_false_of_isDigit h
  all_goals subst h
  all_goals decide

theorem ne_rbracket_of_isNumChar {c : Char} (h : isNumChar c = true) : ¬(c = ']') := by
  unfold isNumChar at h
  simp only [Bool.or_eq_true, decide_eq_true_eq] at h
  rcases h with ((((h | h) | h) | h) | h) | h
  · exact ne_rbracket_of_isDigit h
  all_goals subst h
  all_goals decide

theorem dumpVal_head (v : Py) (ind : Nat) (hwf : wfPy v = true) :
    ∃ c t, dumpVal v ind = c :: t ∧ isWs c = false ∧ ¬(c = ']') := by
  cases v with
  | none => exact ⟨'n', _, rfl, by decide, by decide⟩
  | bool b =>
      cases b with
      | false => exact ⟨'f', _, rfl, by decide, by decide⟩
      | true => exact ⟨'t', _, rfl, by decide, by decide⟩
  | int n =>
      cases n with
      | ofNat m =>
          obtain ⟨c, t, h⟩ : ∃ c t, natRepr m = c :: t := by
            cases h : natRepr m with
            | nil => exact absurd h (natRepr_ne_nil m)
            | cons c t => exact ⟨c, t, rfl⟩
          have hd : c.isDigit = true :=
            natRepr_all_digits m c (by rw [h]; exact List.mem_cons_self c t)
          exact ⟨c, t, h, isWs_eq_false_of_isDigit hd, ne_rbracket_of_isDigit hd⟩
      | negSucc m => exact ⟨'-', _, rfl, by decide, by decide⟩
  | float lit =>
      have hq : wfLit lit = true := hwf
      cases lit with
      | nil => exact absurd hq (by decide)
      | cons c t =>
          have hall : (c :: t).all isNumChar = true := by
            unfold wfLit at hq
            rw [Bool.and_eq_true, Bool.and_eq_true] at hq
            exact hq.1.2
          have hc : isNumChar c = true :=
            List.all_eq_true.mp hall c (List.mem_cons_self c t)
          exact ⟨c, t, rfl, isWs_eq_false_of_isNumChar hc, ne_rbracket_of_isNumChar hc⟩
  | str s => exact ⟨'"', _, rfl, by decide, by decide⟩
  | list xs =>
      cases xs with
      | nil => exact ⟨'[', _, rfl, by decide, by decide⟩
      | cons x xs => exact ⟨'[', _, rfl, by decide, by decide⟩
  | dict kvs =>
      cases kvs with
      | nil => exact ⟨'\x7b', _, rfl, by decide, by decide⟩
      | cons kv kvs => exact ⟨'\x7b', _, rfl, by decide, by decide⟩

theorem digit_ne {c : Char} (h : c.isDigit = true) (d : Char) (hd : d.isDigit = false) :
    ¬(c = d) := by
  intro he
  subst he
  rw [h] at hd
  cases hd

theorem numchar_head_props {c : Char} (h : isNumChar c = true) :
    isWs c = false ∧ ¬(c = '\x7b') ∧ ¬(c = '[') ∧ ¬(c = '"') ∧ ¬(c = 't') ∧ ¬(c = 'f')
      ∧ ¬(c = 'n') := by
  unfold isNumChar at h
  simp only [Bool.or_eq_true, decide_eq_true_eq] at h
  rcases h with ((((h | h) | h) | h) | h) | h
  · exact ⟨isWs_eq_false_of_isDigit h, digit_ne h _ (by decide), digit_ne h _ (by decide),
      digit_ne h _ (by decide), digit_ne h _ (by decide), digit_ne h _ (by decide),
      digit_ne h _ (by decide)⟩
  all_goals subst h
  all_goals exact ⟨by decide, by decide, by decide, by decide, by decide, by decide, by decide⟩

theorem parseVal_succ_cons (fuel : Nat) (c : Char) (r : List Char) (hws : isWs c = false) :
    parseVal (fuel + 1) (c :: r) =
      (if c = '\x7b' then
        match skipWs r with
        | [] => Option.none
        | c2 :: r2 =>
            if c2 = '\x7d' then some (.dict [], r2)
            else (parseMembers fuel (c2 :: r2)).map (fun mr => ((.dict mr.1 : Py), mr.2))
      else if c = '[' then
        match skipWs r with
        | [] => Option.none
        | c2 :: r2 =>
            if c2 = ']' then some (.list [], r2)
            else (parseElems fuel (c2 :: r2)).map (fun er => ((.list er.1 : Py), er.2))
      else if c = '"' then
        (parseStringBody r).map (fun sr => ((.str (String.mk sr.1) : Py), sr.2))
      else if c = 't' then
        (stripLit ['r', 'u', 'e'] r).map (fun r1 => ((.bool true : Py), r1))
      else if c = 'f' then
        (stripLit ['a', 'l', 's', 'e'] r).map (fun r1 => ((.bool false : Py), r1))
      else if c = 'n' then
        (stripLit ['u', 'l', 'l'] r).map (fun r1 => ((.none : Py), r1))
      else parseNumber (c :: r)) := by
  rw [parseVal_succ, skipWs_cons_of_not _ hws]

theorem parseMembers_succ_cons (fuel : Nat) (c : Char) (r : List Char) (hws : isWs c = false) :
    parseMembers (fuel + 1) (c :: r) =
      (if c = '"' then
        match parseStringBody r with
        | some (k, r1) =>
            match skipWs r1 with
            | [] => Option.none
            | c2 :: r2 =>
                if c2 = ':' then
                  match parseVal fuel r2 with
                  | some (v, r3) =>
                      match skipWs r3 with
                      | [] => Option.none
                      | c4 :: r4 =>
                          if c4 = ',' then
                            (parseMembers fuel r4).map
                              (fun mr => ((String.mk k, v) :: mr.1, mr.2))
                          else if c4 = '\x7d' then some ([(String.mk k, v)], r4)
                          else Option.none
                  | Option.none => Option.none
                else Option.none
        | Option.none => Option.none
      else Option.none) := by
  rw [parseMembers_succ, skipWs_cons_of_not _ hws]

theorem pySize_pos (v : Py) : 1 ≤ pySize v := by
  cases v <;> simp [pySize]

theorem pySizeList_pos (x : Py) (xs : List Py) : 1 ≤ pySizeList (x :: xs) := by
  simp [pySizeList]
  omega

theorem pySizeKvs_pos (kv : String × Py) (kvs : List (String × Py)) :
    1 ≤ pySizeKvs (kv :: kvs) := by
  obtain ⟨k, v⟩ := kv
  simp [pySizeKvs]
  omega

theorem string_mk_data (s : String) : String.mk s.data = s := rfl

theorem parseVal_ws_cons (fuel : Nat) {c : Char} (l : List Char) (h : isWs c = true) :
    parseVal fuel (c :: l) = parseVal fuel l := by
  rw [← parseVal_skipWs fuel (c :: l), skipWs_cons_of_ws _ h, parseVal_skipWs]

theorem parseMembers_ws_cons (fuel : Nat) {c : Char} (l : List Char) (h : isWs c = true) :
    parseMembers fuel (c :: l) = parseMembers fuel l := by
  rw [← parseMembers_skipWs fuel (c :: l), skipWs_cons_of_ws _ h, parseMembers_skipWs]

theorem parseElems_ws_cons (fuel : Nat) {c : Char} (l : List Char) (h : isWs c = true) :
    parseElems fuel (c :: l) = parseElems fuel l := by
  rw [← parseElems_skipWs fuel (c :: l), skipWs_cons_of_ws _ h, parseElems_skipWs]

theorem parseVal_replicate (fuel n : Nat) (l : List Char) :
    parseVal fuel (List.replicate n ' ' ++ l) = parseVal fuel l := by
  rw [← parseVal_skipWs fuel (List.replicate n ' ' ++ l), skipWs_replicate, parseVal_skipWs]

theorem parseMembers_replicate (fuel n : Nat) (l : List Char) :
    parseMembers fuel (List.replicate n ' ' ++ l) = parseMembers fuel l := by
  rw [← parseMembers_skipWs fuel (List.replicate n ' ' ++ l), skipWs_replicate,
    parseMembers_skipWs]

theorem parseElems_replicate (fuel n : Nat) (l : List Char) :
    parseElems fuel (List.replicate n ' ' ++ l) = parseElems fuel l := by
  rw [← parseElems_skipWs fuel (List.replicate n ' ' ++ l), skipWs_replicate, parseElems_skipWs]

theorem skipWs_dumpElems_cons (x : Py) (xs : List Py) (ind : Nat) (S : List Char)
    (hwx : wfPy x = true) :
    ∃ c t, skipWs (dumpElems (x :: xs) ind ++ S) = c :: t ∧ isWs c = false ∧ ¬(c = ']') := by
  obtain ⟨c, t0, hct, hws, hnb⟩ := dumpVal_head x ind hwx
  cases xs with
  | nil =>
      refine ⟨c, t0 ++ S, ?_, hws, hnb⟩
      rw [show dumpElems [x] ind = List.replicate ind ' ' ++ dumpVal x ind from rfl]
      rw [List.append_assoc, skipWs_replicate, hct, List.cons_append,
        skipWs_cons_of_not _ hws]
  | cons y ys =>
      refine ⟨c, t0 ++ (',' :: '\n' :: dumpElems (y :: ys) ind ++ S), ?_, hws, hnb⟩
      rw [show dumpElems (x :: y :: ys) ind = List.replicate ind ' ' ++ dumpVal x ind ++
        ',' :: '\n' :: dumpElems (y :: ys) ind from rfl]
      simp only [List.append_assoc]
      rw [skipWs_replicate, hct, List.cons_append, skipWs_cons_of_not _ hws]

theorem skipWs_dumpMembers_cons (kv : String × Py) (kvs : List (String × Py)) (ind : Nat)
    (S : List Char) :
    ∃ t, skipWs (dumpMembers (kv :: kvs) ind ++ S) = '"' :: t := by
  obtain ⟨k, v⟩ := kv
  cases kvs with
  | nil =>
      refine ⟨escString k.data ++ '"' :: ':' :: ' ' :: dumpVal v ind ++ S, ?_⟩
      rw [show dumpMembers [(k, v)] ind = List.replicate ind ' ' ++
        '"' :: escString k.data ++ '"' :: ':' :: ' ' :: dumpVal v ind from rfl]
      simp only [List.cons_append, List.append_assoc, List.nil_append]
      rw [skipWs_replicate, skipWs_cons_of_not _ (by decide)]
  | cons kv2 kvs2 =>
      refine ⟨escString k.data ++ '"' :: ':' :: ' ' :: dumpVal v ind ++
        ',' :: '\n' :: dumpMembers (kv2 :: kvs2) ind ++ S, ?_⟩
      rw [show dumpMembers ((k, v) :: kv2 :: kvs2) ind = List.replicate ind ' ' ++
        '"' :: escString k.data ++ '"' :: ':' :: ' ' :: dumpVal v ind ++
          ',' :: '\n' :: dumpMembers (kv2 :: kvs2) ind from rfl]
      simp only [List.cons_append, List.append_assoc, List.nil_append]
      rw [skipWs_replicate, skipWs_cons_of_not _ (by decide)]

set_option maxHeartbeats 1000000

theorem parse_dump (fuel : Nat) :
    (∀ (v : Py) (ind : Nat) (rest : List Char), pySize v ≤ fuel → wfPy v = true →
        numBoundary rest →
        parseVal fuel (dumpVal v ind ++ rest) = some (v, rest))
    ∧ (∀ (x : Py) (xs : List Py) (ind j : Nat) (rest : List Char),
        pySizeList (x :: xs) ≤ fuel → wfPyList (x :: xs) = true →
        parseElems fuel (dumpElems (x :: xs) ind ++ '\n' :: List.replicate j ' ' ++ ']' :: rest) =
          some (x :: xs, rest))
    ∧ (∀ (kv : String × Py) (kvs : List (String × Py)) (ind j : Nat) (rest : List Char),
        pySizeKvs (kv :: kvs) ≤ fuel → wfPyKvs (kv :: kvs) = true →
        parseMembers fuel
            (dumpMembers (kv :: kvs) ind ++ '\n' :: List.replicate j ' ' ++ '\x7d' :: rest) =
          some (kv :: kvs, rest)) := by
  induction fuel with
  | zero =>
      refine ⟨?_, ?_, ?_⟩
      · intro v ind rest hsz _ _
        exact absurd hsz (by have := pySize_pos v; omega)
      · intro x xs ind j rest hsz _
        exact absurd hsz (by have := pySizeList_pos x xs; omega)
      · intro kv kvs ind j rest hsz _
        exact absurd hsz (by have := pySizeKvs_pos kv kvs; omega)
  | succ fuel ih =>
      obtain ⟨ihv, ihe, ihm⟩ := ih
      refine ⟨?_, ?_, ?_⟩
      · -- parseVal
        intro v ind rest hsz hwf hnb
        cases v with
        | none =>
            rw [show dumpVal .none ind ++ rest = 'n' :: ('u' :: 'l' :: 'l' :: rest) by
              simp [dumpVal]]
            rw [parseVal_succ_cons fuel _ _ (by decide)]
            rw [if_neg (by decide), if_neg (by decide), if_neg (by decide),
              if_neg (by decide), if_neg (by decide), if_pos rfl]
            rw [show ('u' :: 'l' :: 'l' :: rest) = ['u', 'l', 'l'] ++ rest from rfl,
              stripLit_append]
            rfl
        | bool b =>
            cases b with
            | true =>
                rw [show dumpVal (.bool true) ind ++ rest = 't' :: ('r' :: 'u' :: 'e' :: rest) by
                  simp [dumpVal]]
                rw [parseVal_succ_cons fuel _ _ (by decide)]
                rw [if_neg (by decide), if_neg (by decide), if_neg (by decide), if_pos rfl]
                rw [show ('r' :: 'u' :: 'e' :: rest) = ['r', 'u', 'e'] ++ rest from rfl,
                  stripLit_append]
                rfl
            | false =>
                rw [show dumpVal (.bool false) ind ++ rest =
                    'f' :: ('a' :: 'l' :: 's' :: 'e' :: rest) by simp [dumpVal]]
                rw [parseVal_succ_cons fuel _ _ (by decide)]
                rw [if_neg (by decide), if_neg (by decide), if_neg (by decide),
                  if_neg (by decide), if_pos rfl]
                rw [show ('a' :: 'l' :: 's' :: 'e' :: rest) = ['a', 'l', 's', 'e'] ++ rest
                  from rfl, stripLit_append]
                rfl
        | int n =>
            obtain ⟨c, t, hct⟩ : ∃ c t, intRepr n = c :: t := by
              cases h : intRepr n with
              | nil => exact absurd h (intRepr_ne_nil n)
              | cons c t => exact ⟨c, t, rfl⟩
            have hc : isNumChar c = true :=
              intRepr_all_numChar n c (by rw [hct]; exact List.mem_cons_self c t)
            obtain ⟨hws, hb1, hb2, hb3, hb4, hb5, hb6⟩ := numchar_head_props hc
            rw [show dumpVal (.int n) ind = intRepr n from rfl, hct, List.cons_append]
            rw [parseVal_succ_cons fuel _ _ hws]
            rw [if_neg hb1, if_neg hb2, if_neg hb3, if_neg hb4, if_neg hb5, if_neg hb6]
            rw [← List.cons_append, ← hct]
            exact parseNumber_intRepr n rest hnb
        | float lit =>
            have hq : wfLit lit = true := hwf
            obtain ⟨c, t, hct⟩ : ∃ c t, lit = c :: t := by
              cases lit with
              | nil => exact absurd hq (by decide)
              | cons c t => exact ⟨c, t, rfl⟩
            have hc : isNumChar c = true := by
              unfold wfLit at hq
              rw [Bool.and_eq_true, Bool.and_eq_true] at hq
              exact List.all_eq_true.mp hq.1.2 c (by rw [hct]; exact List.mem_cons_self c t)
            obtain ⟨hws, hb1, hb2, hb3, hb4, hb5, hb6⟩ := numchar_head_props hc
            rw [show dumpVal (.float lit) ind = lit from rfl, hct, List.cons_append]
            rw [parseVal_succ_cons fuel _ _ hws]
            rw [if_neg hb1, if_neg hb2, if_neg hb3, if_neg hb4, if_neg hb5, if_neg hb6]
            rw [← List.cons_append, ← hct]
            exact parseNumber_wfLit lit rest hq hnb
        | str s =>
            rw [show dumpVal (.str s) ind ++ rest = '"' :: (escString s.data ++ '"' :: rest) by
              simp [dumpVal]]
            rw [parseVal_succ_cons fuel _ _ (by decide)]
            rw [if_neg (by decide), if_neg (by decide), if_pos rfl]
            rw [parseStringBody_esc]
            rfl
        | list xs =>
            cases xs with
            | nil =>
                rw [show dumpVal (.list []) ind ++ rest = '[' :: (']' :: rest) by
                  simp [dumpVal]]
                rw [parseVal_succ_cons fuel _ _ (by decide)]
                rw [if_neg (by decide), if_pos rfl]
                rw [show skipWs (']' :: rest) = ']' :: rest from
                  skipWs_cons_of_not _ (by decide)]
                simp
            | cons x xs =>
                have hwfl : wfPyList (x :: xs) = true := hwf
                have hwfx : wfPy x = true := by
                  have : wfPyList (x :: xs) = (wfPy x && wfPyList xs) := rfl
                  rw [this, Bool.and_eq_true] at hwfl
                  exact hwfl.1
                have hwfl2 : wfPyList (x :: xs) = true := hwf
                have hszl : pySizeList (x :: xs) ≤ fuel := by
                  have : pySize (Py.list (x :: xs)) = 1 + pySizeList (x :: xs) := rfl
                  omega
                rw [show dumpVal (.list (x :: xs)) ind = '[' :: '\n' ::
                  dumpElems (x :: xs) (ind + 2) ++ '\n' :: List.replicate ind ' ' ++ [']']
                  from rfl]
                simp only [List.cons_append, List.append_assoc, List.nil_append]
                rw [parseVal_succ_cons fuel _ _ (by decide), if_neg (by decide), if_pos rfl]
                rw [skipWs_cons_of_ws _ (by decide)]
                obtain ⟨c, t, hskip, hws, hnb⟩ := skipWs_dumpElems_cons x xs (ind + 2)
                  ('\n' :: (List.replicate ind ' ' ++ (']' :: rest))) hwfx
                rw [hskip]
                have he := ihe x xs (ind + 2) ind rest hszl hwfl2
                have hpe : parseElems fuel (c :: t) = some (x :: xs, rest) := by
                  rw [← hskip, parseElems_skipWs]
                  simp only [List.cons_append, List.append_assoc, List.nil_append] at he
                  exact he
                simp [hnb, hpe]
        | dict kvs =>
            cases kvs with
            | nil =>
                rw [show dumpVal (.dict []) ind ++ rest = '\x7b' :: ('\x7d' :: rest) by
                  simp [dumpVal]]
                rw [parseVal_succ_cons fuel _ _ (by decide)]
                rw [if_pos rfl]
                rw [show skipWs ('\x7d' :: rest) = '\x7d' :: rest from
                  skipWs_cons_of_not _ (by decide)]
                simp
            | cons kv kvs =>
                have hwfm : wfPyKvs (kv :: kvs) = true := hwf
                have hszm : pySizeKvs (kv :: kvs) ≤ fuel := by
                  have : pySize (Py.dict (kv :: kvs)) = 1 + pySizeKvs (kv :: kvs) := rfl
                  omega
                rw [show dumpVal (.dict (kv :: kvs)) ind = '\x7b' :: '\n' ::
                  dumpMembers (kv :: kvs) (ind + 2) ++ '\n' :: List.replicate ind ' ' ++
                    ['\x7d'] from rfl]
                simp only [List.cons_append, List.append_assoc, List.nil_append]
                rw [parseVal_succ_cons fuel _ _ (by decide), if_pos rfl]
                rw [skipWs_cons_of_ws _ (by decide)]
                obtain ⟨t, hskip⟩ := skipWs_dumpMembers_cons kv kvs (ind + 2)
                  ('\n' :: (List.replicate ind ' ' ++ ('\x7d' :: rest)))
                rw [hskip]
                have hm := ihm kv kvs (ind + 2) ind rest hszm hwfm
                have hpm : parseMembers fuel ('"' :: t) = some (kv :: kvs, rest) := by
                  rw [← hskip, parseMembers_skipWs]
                  simp only [List.cons_append, List.append_assoc, List.nil_append] at hm
                  exact hm
                simp [hpm]
      · -- parseElems
        intro x xs ind j rest hsz hwf
        have hwfx : wfPy x = true := by
          have : wfPyList (x :: xs) = (wfPy x && wfPyList xs) := rfl
          rw [this, Bool.and_eq_true] at hwf
          exact hwf.1
        have hwfxs : wfPyList xs = true := by
          have : wfPyList (x :: xs) = (wfPy x && wfPyList xs) := rfl
          rw [this, Bool.and_eq_true] at hwf
          exact hwf.2
        cases xs with
        | nil =>
            have hszx : pySize x ≤ fuel := by
              have : pySizeList [x] = 1 + pySize x + 0 := rfl
              omega
            have hx := ihv x ind ('
' :: List.replicate j ' ' ++ ']' :: rest) hszx hwfx
              (Or.inr ⟨'
', _, rfl, by decide⟩)
            rw [show dumpElems [x] ind = List.replicate ind ' ' ++ dumpVal x ind from rfl]
            simp only [List.cons_append, List.append_assoc, List.nil_append]
            rw [parseElems_succ]
            simp only [List.cons_append, List.append_assoc, List.nil_append] at hx
            simp [skipWs_cons_of_not, skipWs_cons_of_ws, skipWs_replicate, isWs, hx,
              parseVal_replicate]
        | cons y ys =>
            have hszx : pySize x ≤ fuel := by
              have : pySizeList (x :: y :: ys) = 1 + pySize x + pySizeList (y :: ys) := rfl
              have hp := pySizeList_pos y ys
              omega
            have hszys : pySizeList (y :: ys) ≤ fuel := by
              have : pySizeList (x :: y :: ys) = 1 + pySize x + pySizeList (y :: ys) := rfl
              omega
            have hx := ihv x ind
              (',' :: '
' :: (dumpElems (y :: ys) ind ++
                ('
' :: (List.replicate j ' ' ++ ']' :: rest)))) hszx hwfx
              (Or.inr ⟨',', _, rfl, by decide⟩)
            have he := ihe y ys ind j rest hszys hwfxs
            rw [show dumpElems (x :: y :: ys) ind = List.replicate ind ' ' ++ dumpVal x ind ++
              ',' :: '
' :: dumpElems (y :: ys) ind from rfl]
            simp only [List.cons_append, List.append_assoc, List.nil_append]
            rw [parseElems_succ]
            simp only [List.cons_append, List.append_assoc, List.nil_append] at hx he
            simp [skipWs_cons_of_not, skipWs_cons_of_ws, skipWs_replicate, isWs, hx, he,
              parseVal_replicate, parseElems_ws_cons]
      · -- parseMembers
        intro kv kvs ind j rest hsz hwf
        obtain ⟨k, v⟩ := kv
        have hwfv : wfPy v = true := by
          have : wfPyKvs ((k, v) :: kvs) = (wfPy v && wfPyKvs kvs) := rfl
          rw [this, Bool.and_eq_true] at hwf
          exact hwf.1
        have hwfk : wfPyKvs kvs = true := by
          have : wfPyKvs ((k, v) :: kvs) = (wfPy v && wfPyKvs kvs) := rfl
          rw [this, Bool.and_eq_true] at hwf
          exact hwf.2
        cases kvs with
        | nil =>
            have hsz' : pySize v ≤ fuel := by
              have : pySizeKvs [(k, v)] = 1 + pySize v + 0 := rfl
              omega
            have hx := ihv v ind ('
' :: List.replicate j ' ' ++ '}' :: rest) hsz' hwfv
              (Or.inr ⟨'
', _, rfl, by decide⟩)
            rw [show dumpMembers [(k, v)] ind = List.replicate ind ' ' ++
              '"' :: escString k.data ++ '"' :: ':' :: ' ' :: dumpVal v ind from rfl]
            simp only [List.cons_append, List.append_assoc, List.nil_append]
            rw [parseMembers_replicate]
            rw [parseMembers_succ_cons fuel _ _ (by decide), if_pos rfl]
            rw [parseStringBody_esc]
            simp only [List.cons_append, List.append_assoc, List.nil_append] at hx
            simp [skipWs_cons_of_not, skipWs_cons_of_ws, skipWs_replicate, isWs, hx,
              string_mk_data, parseVal_ws_cons]
        | cons kv2 kvs2 =>
            have hszv : pySize v ≤ fuel := by
              have : pySizeKvs ((k, v) :: kv2 :: kvs2) =
                  1 + pySize v + pySizeKvs (kv2 :: kvs2) := rfl
              have hp := pySizeKvs_pos kv2 kvs2
              omega
            have hszm : pySizeKvs (kv2 :: kvs2) ≤ fuel := by
              have : pySizeKvs ((k, v) :: kv2 :: kvs2) =
                  1 + pySize v + pySizeKvs (kv2 :: kvs2) := rfl
              omega
            have hx := ihv v ind
              (',' :: '
' :: (dumpMembers (kv2 :: kvs2) ind ++
                ('
' :: (List.replicate j ' ' ++ '}' :: rest)))) hszv hwfv
              (Or.inr ⟨',', _, rfl, by decide⟩)
            have hm := ihm kv2 kvs2 ind j rest hszm hwfk
            rw [show dumpMembers ((k, v) :: kv2 :: kvs2) ind = List.replicate ind ' ' ++
              '"' :: escString k.data ++ '"' :: ':' :: ' ' :: dumpVal v ind ++
                ',' :: '
' :: dumpMembers (kv2 :: kvs2) ind from rfl]
            simp only [List.cons_append, List.append_assoc, List.nil_append]
            rw [parseMembers_replicate]
            rw [parseMembers_succ_cons fuel _ _ (by decide), if_pos rfl]
            rw [parseStringBody_esc]
            simp only [List.cons_append, List.append_assoc, List.nil_append] at hx hm
            simp [skipWs_cons_of_not, skipWs_cons_of_ws, skipWs_replicate, isWs, hx, hm,
              string_mk_data, parseVal_ws_cons, parseMembers_ws_cons]


theorem pySize_le_dump_length (fuel : Nat) :
    (∀ (v : Py) (ind : Nat), pySize v ≤ fuel → wfPy v = true →
        pySize v ≤ (dumpVal v ind).length)
    ∧ (∀ (x : Py) (xs : List Py) (ind : Nat), pySizeList (x :: xs) ≤ fuel →
        wfPyList (x :: xs) = true → 1 ≤ ind →
        pySizeList (x :: xs) ≤ (dumpElems (x :: xs) ind).length)
    ∧ (∀ (kv : String × Py) (kvs : List (String × Py)) (ind : Nat),
        pySizeKvs (kv :: kvs) ≤ fuel → wfPyKvs (kv :: kvs) = true →
        pySizeKvs (kv :: kvs) ≤ (dumpMembers (kv :: kvs) ind).length) := by
  induction fuel with
  | zero =>
      refine ⟨?_, ?_, ?_⟩
      · intro v ind hsz _
        exact absurd hsz (by have := pySize_pos v; omega)
      · intro x xs ind hsz _ _
        exact absurd hsz (by have := pySizeList_pos x xs; omega)
      · intro kv kvs ind hsz _
        exact absurd hsz (by have := pySizeKvs_pos kv kvs; omega)
  | succ fuel ih =>
      obtain ⟨ihv, ihe, ihm⟩ := ih
      refine ⟨?_, ?_, ?_⟩
      · intro v ind hsz hwf
        cases v with
        | none => simp [pySize, dumpVal]
        | bool b => cases b <;> simp [pySize, dumpVal]
        | int n =>
            have := intRepr_ne_nil n
            have : 1 ≤ (intRepr n).length := by
              cases h : intRepr n with
              | nil => exact absurd h this
              | cons c t => simp
            simp [pySize, dumpVal]
            omega
        | float lit =>
            have hq : wfLit lit = true := hwf
            have : 1 ≤ lit.length := by
              cases lit with
              | nil => exact absurd hq (by decide)
              | cons c t => simp
            simp [pySize, dumpVal]
            omega
        | str s => simp [pySize, dumpVal]
        | list xs =>
            cases xs with
            | nil => simp [pySize, pySizeList, dumpVal]
            | cons x xs =>
                have hsz' : pySizeList (x :: xs) ≤ fuel := by
                  have : pySize (Py.list (x :: xs)) = 1 + pySizeList (x :: xs) := rfl
                  omega
                have hb := ihe x xs (ind + 2) hsz' hwf (by omega)
                have h1 : pySize (Py.list (x :: xs)) = 1 + pySizeList (x :: xs) := rfl
                rw [show dumpVal (.list (x :: xs)) ind = '[' :: '\n' ::
                  dumpElems (x :: xs) (ind + 2) ++ '\n' :: List.replicate ind ' ' ++ [']']
                  from rfl]
                simp only [List.length_append, List.length_cons, List.length_replicate,
                  List.length_nil]
                omega
        | dict kvs =>
            cases kvs with
            | nil => simp [pySize, pySizeKvs, dumpVal]
            | cons kv kvs =>
                have hsz' : pySizeKvs (kv :: kvs) ≤ fuel := by
                  have : pySize (Py.dict (kv :: kvs)) = 1 + pySizeKvs (kv :: kvs) := rfl
                  omega
                have hb := ihm kv kvs (ind + 2) hsz' hwf
                have h1 : pySize (Py.dict (kv :: kvs)) = 1 + pySizeKvs (kv :: kvs) := rfl
                rw [show dumpVal (.dict (kv :: kvs)) ind = '\x7b' :: '\n' ::
                  dumpMembers (kv :: kvs) (ind + 2) ++ '\n' :: List.replicate ind ' ' ++
                    ['\x7d'] from rfl]
                simp only [List.length_append, List.length_cons, List.length_replicate,
                  List.length_nil]
                omega
      · intro x xs ind hsz hwf hind
        have hwfx : wfPy x = true := by
          have : wfPyList (x :: xs) = (wfPy x && wfPyList xs) := rfl
          rw [this, Bool.and_eq_true] at hwf
          exact hwf.1
        have hwfxs : wfPyList xs = true := by
          have : wfPyList (x :: xs) = (wfPy x && wfPyList xs) := rfl
          rw [this, Bool.and_eq_true] at hwf
          exact hwf.2
        cases xs with
        | nil =>
            have hszx : pySize x ≤ fuel := by
              have : pySizeList [x] = 1 + pySize x + 0 := rfl
              omega
            have hb := ihv x ind hszx hwfx
            have h1 : pySizeList [x] = 1 + pySize x + 0 := rfl
            rw [show dumpElems [x] ind = List.replicate ind ' ' ++ dumpVal x ind from rfl]
            simp only [List.length_append, List.length_replicate]
            omega
        | cons y ys =>
            have hszx : pySize x ≤ fuel := by
              have : pySizeList (x :: y :: ys) = 1 + pySize x + pySizeList (y :: ys) := rfl
              have := pySizeList_pos y ys
              omega
            have hszys : pySizeList (y :: ys) ≤ fuel := by
              have : pySizeList (x :: y :: ys) = 1 + pySize x + pySizeList (y :: ys) := rfl
              omega
            have hb1 := ihv x ind hszx hwfx
            have hb2 := ihe y ys ind hszys hwfxs hind
            have h1 : pySizeList (x :: y :: ys) = 1 + pySize x + pySizeList (y :: ys) := rfl
            rw [show dumpElems (x :: y :: ys) ind = List.replicate ind ' ' ++ dumpVal x ind ++
              ',' :: '\n' :: dumpElems (y :: ys) ind from rfl]
            simp only [List.length_append, List.length_replicate, List.length_cons]
            omega
      · intro kv kvs ind hsz hwf
        obtain ⟨k, v⟩ := kv
        have hwfv : wfPy v = true := by
          have : wfPyKvs ((k, v) :: kvs) = (wfPy v && wfPyKvs kvs) := rfl
          rw [this, Bool.and_eq_true] at hwf
          exact hwf.1
        have hwfk : wfPyKvs kvs = true := by
          have : wfPyKvs ((k, v) :: kvs) = (wfPy v && wfPyKvs kvs) := rfl
          rw [this, Bool.and_eq_true] at hwf
          exact hwf.2
        cases kvs with
        | nil =>
            have hszv : pySize v ≤ fuel := by
              have : pySizeKvs [(k, v)] = 1 + pySize v + 0 := rfl
              omega
            have hb := ihv v ind hszv hwfv
            have h1 : pySizeKvs [(k, v)] = 1 + pySize v + 0 := rfl
            rw [show dumpMembers [(k, v)] ind = List.replicate ind ' ' ++
              '"' :: escString k.data ++ '"' :: ':' :: ' ' :: dumpVal v ind from rfl]
            simp only [List.length_append, List.length_replicate, List.length_cons]
            omega
        | cons kv2 kvs2 =>
            have hszv : pySize v ≤ fuel := by
              have : pySizeKvs ((k, v) :: kv2 :: kvs2) =
                  1 + pySize v + pySizeKvs (kv2 :: kvs2) := rfl
              have := pySizeKvs_pos kv2 kvs2
              omega
            have hszk : pySizeKvs (kv2 :: kvs2) ≤ fuel := by
              have : pySizeKvs ((k, v) :: kv2 :: kvs2) =
                  1 + pySize v + pySizeKvs (kv2 :: kvs2) := rfl
              omega
            have hb1 := ihv v ind hszv hwfv
            have hb2 := ihm kv2 kvs2 ind hszk hwfk
            have h1 : pySizeKvs ((k, v) :: kv2 :: kvs2) =
                1 + pySize v + pySizeKvs (kv2 :: kvs2) := rfl
            rw [show dumpMembers ((k, v) :: kv2 :: kvs2) ind = List.replicate ind ' ' ++
              '"' :: escString k.data ++ '"' :: ':' :: ' ' :: dumpVal v ind ++
                ',' :: '\n' :: dumpMembers (kv2 :: kvs2) ind from rfl]
            simp only [List.length_append, List.length_replicate, List.length_cons]
            omega

theorem parseJson_dump (v : Py) (hwf : wfPy v = true) :
    parseJson (String.mk (dumpVal v 0)) = some v := by
  unfold parseJson
  have hdata : (String.mk (dumpVal v 0)).data = dumpVal v 0 := rfl
  rw [hdata]
  have hfuel : pySize v ≤ (dumpVal v 0).length + 1 := by
    have := (pySize_le_dump_length (pySize v)).1 v 0 (le_refl _) hwf
    omega
  have hp := (parse_dump ((dumpVal v 0).length + 1)).1 v 0 [] hfuel hwf (Or.inl rfl)
  rw [List.append_nil] at hp
  rw [hp]
  rfl

/-- C8: the wrapper's normalized text of a structured result parses back
into the same structure — same keys, same values, same order (the
round-trip holds for every value whose float repr tokens are well formed,
which `repr` of a finite CPython float always is); a text result is
passed through verbatim, and every other value is converted to its `str`
text. -/
theorem claim_C8_result_normalisation :
    (∀ s : String, formatResult (.str s) = s)
    ∧ (∀ kvs : List (String × Py), wfPy (.dict kvs) = true →
        parseJson (formatResult (.dict kvs)) = some (.dict kvs))
    ∧ (∀ xs : List Py, wfPy (.list xs) = true →
        parseJson (formatResult (.list xs)) = some (.list xs))
    ∧ formatResult .none = "None"
    ∧ (∀ b, formatResult (.bool b) = (if b then "True" else "False"))
    ∧ (∀ n : Int, formatResult (.int n) = String.mk (intRepr n))
    ∧ (∀ lit, formatResult (.float lit) = String.mk lit) := by
  refine ⟨fun s => rfl, ?_, ?_, rfl, ?_, fun n => rfl, fun lit => rfl⟩
  · intro kvs hwf
    exact parseJson_dump (.dict kvs) hwf
  · intro xs hwf
    exact parseJson_dump (.list xs) hwf
  · intro b
    cases b <;> rfl

theorem claim_C8_witness :
    parseJson (formatResult (Py.dict [("score", Py.float ['0', '.', '5']),
        ("label", Py.str "positive")])) =
      some (Py.dict [("score", Py.float ['0', '.', '5']), ("label", Py.str "positive")]) :=
  claim_C8_result_normalisation.2.1
    [("score", Py.float ['0', '.', '5']), ("label", Py.str "positive")] (by decide)
